import Mathlib

/-
A verification development for the rdbtools RDB-file parser
(src/rdbtools/parser.py).  The Python source is shallowly embedded:

  * a file / in-memory buffer is a list of byte values (`ByteStream`);
    `f.read(n)` on a Python file returns up to `n` bytes without error,
    so it is modelled as `take`/`drop`; the `struct.unpack`-based
    readers fail on a short stream, so they return `Option`;
  * Python values held in dynamically-typed cells are modelled by
    `RVal` (`bytes`, `int`, or Python's `None`);
  * callback invocations are modelled as an emitted list of `Event`s;
  * exceptions are modelled as `none` (or a distinguished error value
    for `lzf_decompress`, whose error cases two claims distinguish);
  * `to_datetime` builds a `datetime` from a microseconds-since-epoch
    count; expirations are modelled by that (injective) count;
  * compiled regular expressions are modelled by a regex AST with
    standard semantics; `re.match` anchors at the start of the string.

Definition names follow the source.
-/

set_option maxHeartbeats 1000000

namespace Rdb

abbrev ByteStream := List Nat

def REDIS_RDB_6BITLEN : Nat := 0
def REDIS_RDB_14BITLEN : Nat := 1
def REDIS_RDB_32BITLEN : Nat := 2
def REDIS_RDB_ENCVAL : Nat := 3

def REDIS_RDB_OPCODE_EXPIRETIME_MS : Nat := 252
def REDIS_RDB_OPCODE_EXPIRETIME : Nat := 253
def REDIS_RDB_OPCODE_SELECTDB : Nat := 254
def REDIS_RDB_OPCODE_EOF : Nat := 255

def REDIS_RDB_TYPE_STRING : Nat := 0
def REDIS_RDB_TYPE_LIST : Nat := 1
def REDIS_RDB_TYPE_SET : Nat := 2
def REDIS_RDB_TYPE_ZSET : Nat := 3
def REDIS_RDB_TYPE_HASH : Nat := 4
def REDIS_RDB_TYPE_HASH_ZIPMAP : Nat := 9
def REDIS_RDB_TYPE_LIST_ZIPLIST : Nat := 10
def REDIS_RDB_TYPE_SET_INTSET : Nat := 11
def REDIS_RDB_TYPE_ZSET_ZIPLIST : Nat := 12
def REDIS_RDB_TYPE_HASH_ZIPLIST : Nat := 13

def REDIS_RDB_ENC_INT8 : Nat := 0
def REDIS_RDB_ENC_INT16 : Nat := 1
def REDIS_RDB_ENC_INT32 : Nat := 2
def REDIS_RDB_ENC_LZF : Nat := 3

def DATA_TYPE_MAPPING (t : Nat) : Option String :=
  match t with
  | 0 => some "string"
  | 1 => some "list"
  | 2 => some "set"
  | 3 => some "sortedset"
  | 4 => some "hash"
  | 9 => some "hash"
  | 10 => some "list"
  | 11 => some "set"
  | 12 => some "sortedset"
  | 13 => some "hash"
  | _ => none

/-- A dynamically-typed Python value as the parser produces them:
a byte string, an integer, or `None`. -/
inductive RVal where
  | bytes (bs : List Nat)
  | int (i : Int)
  | vnone
deriving DecidableEq, Repr

/-- The `info` dictionary passed to the start callbacks. -/
structure Info where
  encoding : String
  sizeof_value : Option Nat
deriving DecidableEq, Repr

/-- One callback invocation on the `RdbCallback` object. -/
inductive Event where
  | start_rdb
  | start_database (db : Nat)
  | end_database (db : Nat)
  | set (key : RVal) (value : RVal) (expiry : Option Nat) (info : Info)
  | start_hash (key : RVal) (length : Nat) (expiry : Option Nat) (info : Info)
  | hset (key : RVal) (field : RVal) (value : RVal)
  | end_hash (key : RVal)
  | start_set (key : RVal) (cardinality : Nat) (expiry : Option Nat) (info : Info)
  | sadd (key : RVal) (member : RVal)
  | end_set (key : RVal)
  | start_list (key : RVal) (length : Nat) (expiry : Option Nat) (info : Info)
  | rpush (key : RVal) (value : RVal)
  | end_list (key : RVal)
  | start_sorted_set (key : RVal) (length : Nat) (expiry : Option Nat) (info : Info)
  | zadd (key : RVal) (score : RVal) (member : RVal)
  | end_sorted_set (key : RVal)
  | end_rdb
deriving DecidableEq, Repr

/-- Two's-complement reading of a `w`-bit unsigned value. -/
def toSigned (w : Nat) (v : Nat) : Int :=
  if v < 2 ^ (w - 1) then (v : Int) else (v : Int) - 2 ^ w

/-- Little-endian value of a byte list (first byte least significant). -/
def leVal (bs : List Nat) : Nat :=
  bs.foldr (fun b acc => b + 256 * acc) 0

/-- Big-endian value of a byte list (first byte most significant). -/
def beVal (bs : List Nat) : Nat :=
  bs.foldl (fun acc b => 256 * acc + b) 0

/-- `f.read(n)` followed by `struct.unpack` of exactly `n` bytes:
fails when the stream is short. -/
def readExact (n : Nat) (f : ByteStream) : Option (List Nat × ByteStream) :=
  if n ≤ f.length then some (f.take n, f.drop n) else none

def read_unsigned_char (f : ByteStream) : Option (Nat × ByteStream) :=
  match f with
  | [] => none
  | b :: rest => some (b, rest)

def read_signed_char (f : ByteStream) : Option (Int × ByteStream) :=
  match f with
  | [] => none
  | b :: rest => some (toSigned 8 b, rest)

def read_unsigned_short (f : ByteStream) : Option (Nat × ByteStream) :=
  (readExact 2 f).map (fun p => (leVal p.1, p.2))

def read_signed_short (f : ByteStream) : Option (Int × ByteStream) :=
  (readExact 2 f).map (fun p => (toSigned 16 (leVal p.1), p.2))

def read_unsigned_int (f : ByteStream) : Option (Nat × ByteStream) :=
  (readExact 4 f).map (fun p => (leVal p.1, p.2))

def read_signed_int (f : ByteStream) : Option (Int × ByteStream) :=
  (readExact 4 f).map (fun p => (toSigned 32 (leVal p.1), p.2))

def read_big_endian_unsigned_int (f : ByteStream) : Option (Nat × ByteStream) :=
  (readExact 4 f).map (fun p => (beVal p.1, p.2))

/-- `s = '0' + f.read(3); struct.unpack('i', s)[0] >> 8`: the character
`'0'` (48) is prepended as the least-significant byte of a little-endian
signed 32-bit value, and the arithmetic right shift by 8 (floor division
by 256 on Python ints) discards it again while keeping the sign. -/
def read_24bit_signed_number (f : ByteStream) : Option (Int × ByteStream) :=
  (readExact 3 f).map (fun p => (Int.fdiv (toSigned 32 (leVal (48 :: p.1))) 256, p.2))

def read_unsigned_long (f : ByteStream) : Option (Nat × ByteStream) :=
  (readExact 8 f).map (fun p => (leVal p.1, p.2))

def read_signed_long (f : ByteStream) : Option (Int × ByteStream) :=
  (readExact 8 f).map (fun p => (toSigned 64 (leVal p.1), p.2))

/-- `skip(f, free)`: read and discard `free` bytes (tolerant of EOF). -/
def skip (f : ByteStream) (free : Nat) : ByteStream :=
  f.drop free

/-- `ntohl`: read a little-endian unsigned 32-bit value and swap its
four bytes (the source ors the four shifted masked fields into
`new_val` one after the other). -/
def ntohl (f : ByteStream) : Option (Nat × ByteStream) :=
  match read_unsigned_int f with
  | none => none
  | some (val, f1) =>
    some ((((0 ||| ((val &&& 0x000000ff) <<< 24))
              ||| ((val &&& 0xff000000) >>> 24))
              ||| ((val &&& 0x0000ff00) <<< 8))
              ||| ((val &&& 0x00ff0000) >>> 8), f1)

/-- `read_length_with_encoding`: returns `(length, is_encoded)`. -/
def read_length_with_encoding (f : ByteStream) : Option ((Nat × Bool) × ByteStream) :=
  match read_unsigned_char f with
  | none => none
  | some (byte0, f1) =>
    let enc_type := (byte0 &&& 0xC0) >>> 6
    if enc_type = REDIS_RDB_ENCVAL then
      some ((byte0 &&& 0x3F, true), f1)
    else if enc_type = REDIS_RDB_6BITLEN then
      some ((byte0 &&& 0x3F, false), f1)
    else if enc_type = REDIS_RDB_14BITLEN then
      match read_unsigned_char f1 with
      | none => none
      | some (byte1, f2) => some ((((byte0 &&& 0x3F) <<< 8) ||| byte1, false), f2)
    else
      match ntohl f1 with
      | none => none
      | some (l, f2) => some ((l, false), f2)

def read_length (f : ByteStream) : Option (Nat × ByteStream) :=
  (read_length_with_encoding f).map (fun p => (p.1.1, p.2))

/-- Spec-side length-prefix encoder: `v` encoded under the
minimum-width class; the 32-bit class stores the width big-endian. -/
def encode_length_spec (v : Nat) : List Nat :=
  if v < 64 then [v]
  else if v < 16384 then [64 + v / 256, v % 256]
  else [128, v / 16777216, v / 65536 % 256, v / 256 % 256, v % 256]

/-! ### LZF decompression -/

/-- Failure modes of `lzf_decompress`: running off the end of the input
(an `IndexError` on `in_stream`), indexing `out_stream` out of range
(an `IndexError` on the output bytearray, with the offending index),
and the final declared-length check (`CorruptLzf`). -/
inductive LzfErr where
  | inShort
  | outOfRange (ref : Int)
  | corrupt
deriving DecidableEq

/-- Python sequence indexing on a bytearray: non-negative indices count
from the front, negative indices from the back, anything else raises. -/
def pyGet (l : List Nat) (i : Int) : Option Nat :=
  if 0 ≤ i then l.get? i.toNat
  else if 0 ≤ (l.length : Int) + i then l.get? ((l.length : Int) + i).toNat
  else none

/-- The back-reference copy loop:
`out_stream.append(out_stream[ref]); ref = ref + 1`, run `length + 2`
times. -/
def lzfCopy (out : List Nat) (ref : Int) : Nat → Except LzfErr (List Nat)
  | 0 => Except.ok out
  | cnt + 1 =>
    match pyGet out ref with
    | none => Except.error (LzfErr.outOfRange ref)
    | some b => lzfCopy (out ++ [b]) (ref + 1) cnt

/-- `length = ctrl >> 5; if length == 7: length = length + in_stream[in_index]`
(the extension byte is consumed from the input). -/
def lzfLength (ctrl : Nat) (rest : List Nat) : Option (Nat × List Nat) :=
  if ctrl >>> 5 = 7 then
    match rest with
    | [] => none
    | b :: rest2 => some (7 + b, rest2)
  else some (ctrl >>> 5, rest)

/-- The main loop of `lzf_decompress` over the remaining input, with
explicit fuel; every iteration consumes at least one input byte, so fuel
equal to the input length always suffices. `out` is the output produced
so far (`out_index` in the source always equals its length). -/
def lzfRun : Nat → List Nat → List Nat → Except LzfErr (List Nat)
  | _, [], out => Except.ok out
  | 0, _ :: _, _ => Except.error LzfErr.inShort
  | fuel + 1, ctrl :: rest, out =>
    if ctrl < 32 then
      if rest.length < ctrl + 1 then Except.error LzfErr.inShort
      else lzfRun fuel (rest.drop (ctrl + 1)) (out ++ rest.take (ctrl + 1))
    else
      match lzfLength ctrl rest with
      | none => Except.error LzfErr.inShort
      | some (length, rest2) =>
        match rest2 with
        | [] => Except.error LzfErr.inShort
        | b2 :: rest3 =>
          match lzfCopy out
              ((out.length : Int) - (((ctrl &&& 0x1f) <<< 8 : Nat) : Int)
                - (b2 : Int) - 1) (length + 2) with
          | Except.error e => Except.error e
          | Except.ok out2 => lzfRun fuel rest3 out2

def lzf_decompress (compressed : List Nat) (expected_length : Nat) :
    Except LzfErr (List Nat) :=
  match lzfRun compressed.length compressed [] with
  | Except.error e => Except.error e
  | Except.ok out_stream =>
    if out_stream.length ≠ expected_length then Except.error LzfErr.corrupt
    else Except.ok out_stream

/-- Spec-side overlapping back-reference copy: append `cnt` bytes read
from position `ref` of the growing output (so a copy whose source range
overlaps the appended region re-reads bytes it has just written). -/
def ovCopy (out : List Nat) (ref : Nat) : Nat → List Nat
  | 0 => out
  | cnt + 1 => ovCopy (out ++ [out.getD ref 0]) (ref + 1) cnt

/-- Spec-side characterisation of a valid LZF encoding, following the
claim: control bytes below 32 introduce `c + 1` literal bytes; other
control bytes introduce a back-reference of length `(c >>> 5) + 2`,
extended by one byte when `c >>> 5 = 7`, at distance
`((c &&& 0x1f) <<< 8 ||| b2) + 1`, which must not reach before the
start of the output produced so far. `LzfEnc out comp final` says that
consuming all of `comp` starting from already-produced output `out`
ends with output `final`. -/
inductive LzfEnc : List Nat → List Nat → List Nat → Prop where
  | done (out : List Nat) : LzfEnc out [] out
  | lit (out : List Nat) (c : Nat) (lits rest final : List Nat)
      (hc : c < 32) (hlen : lits.length = c + 1)
      (htail : LzfEnc (out ++ lits) rest final) :
      LzfEnc out (c :: (lits ++ rest)) final
  | backref (out : List Nat) (c b2 : Nat) (rest final : List Nat)
      (hc1 : 32 ≤ c) (hc2 : c < 256) (hb2 : b2 < 256)
      (hshort : c >>> 5 ≠ 7)
      (hdist : (((c &&& 0x1f) <<< 8) ||| b2) + 1 ≤ out.length)
      (htail : LzfEnc
        (ovCopy out (out.length - ((((c &&& 0x1f) <<< 8) ||| b2) + 1)) ((c >>> 5) + 2))
        rest final) :
      LzfEnc out (c :: b2 :: rest) final
  | backrefExt (out : List Nat) (c ext b2 : Nat) (rest final : List Nat)
      (hc1 : 32 ≤ c) (hc2 : c < 256) (hext : ext < 256) (hb2 : b2 < 256)
      (hlong : c >>> 5 = 7)
      (hdist : (((c &&& 0x1f) <<< 8) ||| b2) + 1 ≤ out.length)
      (htail : LzfEnc
        (ovCopy out (out.length - ((((c &&& 0x1f) <<< 8) ||| b2) + 1)) ((7 + ext) + 2))
        rest final) :
      LzfEnc out (c :: ext :: b2 :: rest) final

/-! ### String codec -/

/-- `read_string`: a length-with-encoding prefix, then either raw
bytes, an integer-encoded value, or an LZF-compressed run.  An unknown
special encoding leaves Python's `val = None`. -/
def read_string (f : ByteStream) : Option (RVal × ByteStream) :=
  match read_length_with_encoding f with
  | none => none
  | some ((length, is_encoded), f1) =>
    if is_encoded then
      if length = REDIS_RDB_ENC_INT8 then
        (read_signed_char f1).map (fun p => (RVal.int p.1, p.2))
      else if length = REDIS_RDB_ENC_INT16 then
        (read_signed_short f1).map (fun p => (RVal.int p.1, p.2))
      else if length = REDIS_RDB_ENC_INT32 then
        (read_signed_int f1).map (fun p => (RVal.int p.1, p.2))
      else if length = REDIS_RDB_ENC_LZF then
        match read_length f1 with
        | none => none
        | some (clen, f2) =>
          match read_length f2 with
          | none => none
          | some (l, f3) =>
            match lzf_decompress (f3.take clen) l with
            | Except.error _ => none
            | Except.ok out => some (RVal.bytes out, f3.drop clen)
      else some (RVal.vnone, f1)
    else some (RVal.bytes (f1.take length), f1.drop length)

/-- `skip_string`: consume the same region as `read_string` without
materialising the value. -/
def skip_string (f : ByteStream) : Option ByteStream :=
  match read_length_with_encoding f with
  | none => none
  | some ((length, is_encoded), f1) =>
    if is_encoded then
      if length = REDIS_RDB_ENC_INT8 then some (skip f1 1)
      else if length = REDIS_RDB_ENC_INT16 then some (skip f1 2)
      else if length = REDIS_RDB_ENC_INT32 then some (skip f1 4)
      else if length = REDIS_RDB_ENC_LZF then
        match read_length f1 with
        | none => none
        | some (clen, f2) =>
          match read_length f2 with
          | none => none
          | some (_, f3) => some (skip f3 clen)
      else some (skip f1 0)
    else some (skip f1 length)

/-! ### Python value helpers -/

def isPySpace (b : Nat) : Bool :=
  b == 32 || b == 9 || b == 10 || b == 13 || b == 11 || b == 12

def isDigit (b : Nat) : Bool :=
  48 ≤ b && b ≤ 57

def digitsVal (ds : List Nat) : Nat :=
  ds.foldl (fun acc d => 10 * acc + (d - 48)) 0

/-- Python `int(bytes)`: optional surrounding ASCII whitespace, an
optional sign, then at least one decimal digit; `ValueError`
otherwise. -/
def pyInt (bs : List Nat) : Option Int :=
  let t := ((bs.dropWhile isPySpace).reverse.dropWhile isPySpace).reverse
  match t with
  | 43 :: ds => if ds ≠ [] ∧ ds.all isDigit then some (digitsVal ds) else none
  | 45 :: ds => if ds ≠ [] ∧ ds.all isDigit then some (-(digitsVal ds : Int)) else none
  | ds => if ds ≠ [] ∧ ds.all isDigit then some (digitsVal ds) else none

/-- Decimal digits of a natural number (fuel-based; `fuel > n`
suffices). -/
def decDigits : Nat → Nat → List Nat
  | 0, _ => []
  | fuel + 1, n => if n < 10 then [48 + n] else decDigits fuel (n / 10) ++ [48 + n % 10]

/-- Python `str(...)` of a parser value, as bytes. -/
def str_of_val : RVal → List Nat
  | RVal.bytes bs => bs
  | RVal.int i =>
    if i < 0 then 45 :: decDigits (i.natAbs + 1) i.natAbs
    else decDigits (i.natAbs + 1) i.natAbs
  | RVal.vnone => [78, 111, 110, 101]

/-- Python truthiness of a parser value. -/
def val_truthy : RVal → Bool
  | RVal.bytes bs => !bs.isEmpty
  | RVal.int i => i != 0
  | RVal.vnone => false

/-! ### Loop helpers for the type readers -/

/-- `for count in xrange(0, n): read_string`, collecting the values. -/
def readNStrings : Nat → ByteStream → Option (List RVal × ByteStream)
  | 0, f => some ([], f)
  | n + 1, f =>
    match read_string f with
    | none => none
    | some (v, f1) =>
      match readNStrings n f1 with
      | none => none
      | some (vs, f2) => some (v :: vs, f2)

def skipNStrings : Nat → ByteStream → Option ByteStream
  | 0, f => some f
  | n + 1, f =>
    match skip_string f with
    | none => none
    | some f1 => skipNStrings n f1

/-- The loop of the hashtable-encoded hash reader: `n` times a field
string and a value string. -/
def readNPairs : Nat → ByteStream → Option (List (RVal × RVal) × ByteStream)
  | 0, f => some ([], f)
  | n + 1, f =>
    match read_string f with
    | none => none
    | some (a, f1) =>
      match read_string f1 with
      | none => none
      | some (b, f2) =>
        match readNPairs n f2 with
        | none => none
        | some (ps, f3) => some ((a, b) :: ps, f3)

/-- The loop of the skiplist-encoded sorted-set reader: `n` times a
member string, then a one-byte length `dbl_length` and that many raw
ASCII score bytes (`f.read` is tolerant of a short stream).  The source
passes the score through `float(...)`; the raw bytes are kept here. -/
def readZSetPairs : Nat → ByteStream → Option (List (RVal × List Nat) × ByteStream)
  | 0, f => some ([], f)
  | n + 1, f =>
    match read_string f with
    | none => none
    | some (member, f1) =>
      match read_unsigned_char f1 with
      | none => none
      | some (dbl_length, f2) =>
        match readZSetPairs n (f2.drop dbl_length) with
        | none => none
        | some (ps, f3) => some ((member, f2.take dbl_length) :: ps, f3)

/-! ### Packed containers -/

/-- `StringIO(raw_string)` / `len(raw_string)`: the packed readers
re-parse a previously read raw string.  A non-bytes `raw_string` makes
every packed reader raise before its first callback (either at the
buffer construction or at `len(raw_string)` in the `start_X` info), so
only the bytes case proceeds. -/
def toBuff : RVal → Option (List Nat)
  | RVal.bytes bs => some bs
  | _ => none

def read_ziplist_entry (f : ByteStream) : Option (RVal × ByteStream) :=
  match read_unsigned_char f with
  | none => none
  | some (prev_length0, f1) =>
    match (if prev_length0 = 254 then
             (read_unsigned_int f1).map (fun p => p.2)
           else some f1) with
    | none => none
    | some f2 =>
      match read_unsigned_char f2 with
      | none => none
      | some (entry_header, f3) =>
        if (entry_header >>> 6) = 0 then
          some (RVal.bytes (f3.take (entry_header &&& 0x3F)),
            f3.drop (entry_header &&& 0x3F))
        else if (entry_header >>> 6) = 1 then
          match read_unsigned_char f3 with
          | none => none
          | some (b, f4) =>
            some (RVal.bytes (f4.take (((entry_header &&& 0x3F) <<< 8) ||| b)),
              f4.drop (((entry_header &&& 0x3F) <<< 8) ||| b))
        else if (entry_header >>> 6) = 2 then
          match read_big_endian_unsigned_int f3 with
          | none => none
          | some (length, f4) =>
            some (RVal.bytes (f4.take length), f4.drop length)
        else if (entry_header >>> 4) = 12 then
          (read_signed_short f3).map (fun p => (RVal.int p.1, p.2))
        else if (entry_header >>> 4) = 13 then
          (read_signed_int f3).map (fun p => (RVal.int p.1, p.2))
        else if (entry_header >>> 4) = 14 then
          (read_signed_long f3).map (fun p => (RVal.int p.1, p.2))
        else if entry_header = 240 then
          (read_24bit_signed_number f3).map (fun p => (RVal.int p.1, p.2))
        else if entry_header = 254 then
          (read_signed_char f3).map (fun p => (RVal.int p.1, p.2))
        else if 241 ≤ entry_header ∧ entry_header ≤ 253 then
          some (RVal.int ((entry_header : Int) - 241), f3)
        else none

def readZiplistEntries : Nat → ByteStream → Option (List RVal × ByteStream)
  | 0, b => some ([], b)
  | n + 1, b =>
    match read_ziplist_entry b with
    | none => none
    | some (v, b1) =>
      match readZiplistEntries n b1 with
      | none => none
      | some (vs, b2) => some (v :: vs, b2)

/-- The pair loop shared by the ziplist-backed sorted set and hash. -/
def readZiplistPairs : Nat → ByteStream → Option (List (RVal × RVal) × ByteStream)
  | 0, b => some ([], b)
  | n + 1, b =>
    match read_ziplist_entry b with
    | none => none
    | some (x, b1) =>
      match read_ziplist_entry b1 with
      | none => none
      | some (y, b2) =>
        match readZiplistPairs n b2 with
        | none => none
        | some (ps, b3) => some ((x, y) :: ps, b3)

/-- The entry loop of `read_intset`: the encoding width is dispatched
inside the loop, so a zero-entry intset never checks it. -/
def readIntsetEntries (encoding : Nat) : Nat → ByteStream → Option (List Nat × ByteStream)
  | 0, b => some ([], b)
  | n + 1, b =>
    match (if encoding = 8 then read_unsigned_long b
           else if encoding = 4 then read_unsigned_int b
           else if encoding = 2 then read_unsigned_short b
           else none) with
    | none => none
    | some (entry, b1) =>
      match readIntsetEntries encoding n b1 with
      | none => none
      | some (es, b2) => some (entry :: es, b2)

def read_intset (key : RVal) (expiry : Option Nat) (f : ByteStream) :
    Option (List Event × ByteStream) :=
  match read_string f with
  | none => none
  | some (raw_string, f1) =>
    match toBuff raw_string with
    | none => none
    | some buff =>
      match read_unsigned_int buff with
      | none => none
      | some (encoding, b1) =>
        match read_unsigned_int b1 with
        | none => none
        | some (num_entries, b2) =>
          match readIntsetEntries encoding num_entries b2 with
          | none => none
          | some (entries, _) =>
            some (Event.start_set key num_entries expiry ⟨"intset", some buff.length⟩
              :: entries.map (fun e => Event.sadd key (RVal.int (Int.ofNat e)))
              ++ [Event.end_set key], f1)

def read_ziplist (key : RVal) (expiry : Option Nat) (f : ByteStream) :
    Option (List Event × ByteStream) :=
  match read_string f with
  | none => none
  | some (raw_string, f1) =>
    match toBuff raw_string with
    | none => none
    | some buff =>
      match read_unsigned_int buff with
      | none => none
      | some (_, b1) =>
        match read_unsigned_int b1 with
        | none => none
        | some (_, b2) =>
          match read_unsigned_short b2 with
          | none => none
          | some (num_entries, b3) =>
            match readZiplistEntries num_entries b3 with
            | none => none
            | some (vals, b4) =>
              match read_unsigned_char b4 with
              | none => none
              | some (zlist_end, _) =>
                if zlist_end ≠ 255 then none
                else
                  some (Event.start_list key num_entries expiry
                      ⟨"ziplist", some buff.length⟩
                    :: vals.map (fun v => Event.rpush key v)
                    ++ [Event.end_list key], f1)

/-- Ziplist-backed sorted set: even entry count halved; each pair is
(member, score); the source passes a string score through `float(...)`,
kept raw here. -/
def read_zset_from_ziplist (key : RVal) (expiry : Option Nat) (f : ByteStream) :
    Option (List Event × ByteStream) :=
  match read_string f with
  | none => none
  | some (raw_string, f1) =>
    match toBuff raw_string with
    | none => none
    | some buff =>
      match read_unsigned_int buff with
      | none => none
      | some (_, b1) =>
        match read_unsigned_int b1 with
        | none => none
        | some (_, b2) =>
          match read_unsigned_short b2 with
          | none => none
          | some (num_entries, b3) =>
            if num_entries % 2 ≠ 0 then none
            else
              match readZiplistPairs (num_entries / 2) b3 with
              | none => none
              | some (pairs, b4) =>
                match read_unsigned_char b4 with
                | none => none
                | some (zlist_end, _) =>
                  if zlist_end ≠ 255 then none
                  else
                    some (Event.start_sorted_set key (num_entries / 2) expiry
                        ⟨"ziplist", some buff.length⟩
                      :: pairs.map (fun p => Event.zadd key p.2 p.1)
                      ++ [Event.end_sorted_set key], f1)

def read_hash_from_ziplist (key : RVal) (expiry : Option Nat) (f : ByteStream) :
    Option (List Event × ByteStream) :=
  match read_string f with
  | none => none
  | some (raw_string, f1) =>
    match toBuff raw_string with
    | none => none
    | some buff =>
      match read_unsigned_int buff with
      | none => none
      | some (_, b1) =>
        match read_unsigned_int b1 with
        | none => none
        | some (_, b2) =>
          match read_unsigned_short b2 with
          | none => none
          | some (num_entries, b3) =>
            if num_entries % 2 ≠ 0 then none
            else
              match readZiplistPairs (num_entries / 2) b3 with
              | none => none
              | some (pairs, b4) =>
                match read_unsigned_char b4 with
                | none => none
                | some (zlist_end, _) =>
                  if zlist_end ≠ 255 then none
                  else
                    some (Event.start_hash key (num_entries / 2) expiry
                        ⟨"ziplist", some buff.length⟩
                      :: pairs.map (fun p => Event.hset key p.1 p.2)
                      ++ [Event.end_hash key], f1)

/-- Zipmap length prefix: a byte below 254 is the length itself, 254
introduces a four-byte little-endian length, 255 ends the zipmap
(returned as an inner `none`). -/
def read_zipmap_next_length (f : ByteStream) : Option (Option Nat × ByteStream) :=
  match read_unsigned_char f with
  | none => none
  | some (num, f1) =>
    if num < 254 then some (some num, f1)
    else if num = 254 then
      (read_unsigned_int f1).map (fun p => (some p.1, p.2))
    else some (none, f1)

/-- The `while True` record loop of `read_zipmap`, with fuel (each
record consumes at least one byte, so `length + 1` fuel suffices):
key length, key bytes, value length, free byte, value bytes (converted
to an integer when they parse as one), then `free` padding bytes. -/
def readZipmapRecords (key : RVal) : Nat → ByteStream → Option (List Event × ByteStream)
  | 0, _ => none
  | fuel + 1, b =>
    match read_zipmap_next_length b with
    | none => none
    | some (none, b1) => some ([], b1)
    | some (some next_length, b1) =>
      match read_zipmap_next_length (b1.drop next_length) with
      | none => none
      | some (none, _) => none
      | some (some vlen, b3) =>
        match read_unsigned_char b3 with
        | none => none
        | some (free, b4) =>
          match readZipmapRecords key fuel (skip (b4.drop vlen) free) with
          | none => none
          | some (evs, b6) =>
            some (Event.hset key (RVal.bytes (b1.take next_length))
              (match pyInt (b4.take vlen) with
               | some i => RVal.int i
               | none => RVal.bytes (b4.take vlen)) :: evs, b6)

def read_zipmap (key : RVal) (expiry : Option Nat) (f : ByteStream) :
    Option (List Event × ByteStream) :=
  match read_string f with
  | none => none
  | some (raw_string, f1) =>
    match toBuff raw_string with
    | none => none
    | some buff =>
      match read_unsigned_char buff with
      | none => none
      | some (num_entries, b1) =>
        match readZipmapRecords key (b1.length + 1) b1 with
        | none => none
        | some (hsets, _) =>
          some (Event.start_hash key num_entries expiry ⟨"zipmap", some buff.length⟩
            :: hsets ++ [Event.end_hash key], f1)

/-! ### Object dispatch -/

def read_object (key : RVal) (expiry : Option Nat) (enc_type : Nat) (f : ByteStream) :
    Option (List Event × ByteStream) :=
  if enc_type = REDIS_RDB_TYPE_STRING then
    match read_string f with
    | none => none
    | some (val, f1) => some ([Event.set key val expiry ⟨"string", none⟩], f1)
  else if enc_type = REDIS_RDB_TYPE_LIST then
    match read_length f with
    | none => none
    | some (length, f1) =>
      match readNStrings length f1 with
      | none => none
      | some (vals, f2) =>
        some (Event.start_list key length expiry ⟨"linkedlist", none⟩
          :: vals.map (fun v => Event.rpush key v)
          ++ [Event.end_list key], f2)
  else if enc_type = REDIS_RDB_TYPE_SET then
    match read_length f with
    | none => none
    | some (length, f1) =>
      match readNStrings length f1 with
      | none => none
      | some (vals, f2) =>
        some (Event.start_set key length expiry ⟨"hashtable", none⟩
          :: vals.map (fun v => Event.sadd key v)
          ++ [Event.end_set key], f2)
  else if enc_type = REDIS_RDB_TYPE_ZSET then
    match read_length f with
    | none => none
    | some (length, f1) =>
      match readZSetPairs length f1 with
      | none => none
      | some (pairs, f2) =>
        some (Event.start_sorted_set key length expiry ⟨"skiplist", none⟩
          :: pairs.map (fun p => Event.zadd key (RVal.bytes p.2) p.1)
          ++ [Event.end_sorted_set key], f2)
  else if enc_type = REDIS_RDB_TYPE_HASH then
    match read_length f with
    | none => none
    | some (length, f1) =>
      match readNPairs length f1 with
      | none => none
      | some (pairs, f2) =>
        some (Event.start_hash key length expiry ⟨"hashtable", none⟩
          :: pairs.map (fun p => Event.hset key p.1 p.2)
          ++ [Event.end_hash key], f2)
  else if enc_type = REDIS_RDB_TYPE_HASH_ZIPMAP then read_zipmap key expiry f
  else if enc_type = REDIS_RDB_TYPE_LIST_ZIPLIST then read_ziplist key expiry f
  else if enc_type = REDIS_RDB_TYPE_SET_INTSET then read_intset key expiry f
  else if enc_type = REDIS_RDB_TYPE_ZSET_ZIPLIST then read_zset_from_ziplist key expiry f
  else if enc_type = REDIS_RDB_TYPE_HASH_ZIPLIST then read_hash_from_ziplist key expiry f
  else none

def skip_object (enc_type : Nat) (f : ByteStream) : Option ByteStream :=
  if enc_type = REDIS_RDB_TYPE_STRING then skipNStrings 1 f
  else if enc_type = REDIS_RDB_TYPE_LIST then
    match read_length f with
    | none => none
    | some (n, f1) => skipNStrings n f1
  else if enc_type = REDIS_RDB_TYPE_SET then
    match read_length f with
    | none => none
    | some (n, f1) => skipNStrings n f1
  else if enc_type = REDIS_RDB_TYPE_ZSET then
    match read_length f with
    | none => none
    | some (n, f1) => skipNStrings (n * 2) f1
  else if enc_type = REDIS_RDB_TYPE_HASH then
    match read_length f with
    | none => none
    | some (n, f1) => skipNStrings (n * 2) f1
  else if enc_type = REDIS_RDB_TYPE_HASH_ZIPMAP then skipNStrings 1 f
  else if enc_type = REDIS_RDB_TYPE_LIST_ZIPLIST then skipNStrings 1 f
  else if enc_type = REDIS_RDB_TYPE_SET_INTSET then skipNStrings 1 f
  else if enc_type = REDIS_RDB_TYPE_ZSET_ZIPLIST then skipNStrings 1 f
  else if enc_type = REDIS_RDB_TYPE_HASH_ZIPLIST then skipNStrings 1 f
  else none

def skip_key_and_object (data_type : Nat) (f : ByteStream) : Option ByteStream :=
  match skip_string f with
  | none => none
  | some f1 => skip_object data_type f1

/-! ### Filters -/

/-- A compiled regular expression, as an AST with the standard
semantics (`dot` matches any single byte). -/
inductive RE where
  | empty
  | eps
  | chr (c : Nat)
  | dot
  | cat (a b : RE)
  | alt (a b : RE)
  | star (a : RE)
deriving DecidableEq

def nullable : RE → Bool
  | RE.empty => false
  | RE.eps => true
  | RE.chr _ => false
  | RE.dot => false
  | RE.cat a b => nullable a && nullable b
  | RE.alt a b => nullable a || nullable b
  | RE.star _ => true

def deriv : RE → Nat → RE
  | RE.empty, _ => RE.empty
  | RE.eps, _ => RE.empty
  | RE.chr c, x => if c = x then RE.eps else RE.empty
  | RE.dot, _ => RE.eps
  | RE.cat a b, x =>
    if nullable a then RE.alt (RE.cat (deriv a x) b) (deriv b x)
    else RE.cat (deriv a x) b
  | RE.alt a b, x => RE.alt (deriv a x) (deriv b x)
  | RE.star a, x => RE.cat (deriv a x) (RE.star a)

/-- Whole-string acceptance. -/
def accepts (r : RE) (s : List Nat) : Bool :=
  nullable (s.foldl deriv r)

/-- Python `re.match`: true iff some prefix of the string (anchored at
position 0) matches the pattern. -/
def reMatch (r : RE) (s : List Nat) : Bool :=
  (List.range (s.length + 1)).any (fun i => accepts r (s.take i))

/-- Python `re.search` (the spec's unanchored match): true iff the
pattern matches starting at some position of the string. -/
def reSearch (r : RE) (s : List Nat) : Bool :=
  (List.range (s.length + 1)).any (fun i => reMatch r (s.drop i))

/-- The normalised filters stored in `self._filters`: `dbs` is `None`
or a container of database indices, `keys` is a compiled pattern, and
`types` is a container of logical type names. -/
structure Filters where
  dbs : Option (List Nat)
  keys : RE
  types : List String
deriving DecidableEq

/-- The `filters` argument accepted by `init_filter`: each entry
optional, `dbs` a single integer or a list, `keys` an (already
compiled) pattern, `types` a single string or a list. -/
structure FilterSpec where
  dbs : Option (Sum Nat (List Nat))
  keys : Option RE
  types : Option (Sum String (List String))

def init_filter (filters : Option FilterSpec) : Filters :=
  let fs := filters.getD ⟨none, none, none⟩
  ⟨match fs.dbs with
   | none => none
   | some (Sum.inl n) => some [n]
   | some (Sum.inr l) => some l,
   fs.keys.getD (RE.star RE.dot),
   match fs.types with
   | none => ["set", "hash", "sortedset", "string", "list"]
   | some (Sum.inl s) => [s]
   | some (Sum.inr l) => l⟩

def get_logical_type (data_type : Nat) : Option String :=
  DATA_TYPE_MAPPING data_type

/-- `if self._filters['dbs'] and (not db_number in self._filters['dbs'])`:
an absent or empty container is falsy and filters nothing. -/
def dbs_reject (fl : Filters) (db_number : Nat) : Bool :=
  match fl.dbs with
  | none => false
  | some l => !l.isEmpty && !l.contains db_number

/-- `if key and (not self._filters['keys'].match(str(key)))`: a falsy
key bypasses the pattern test. -/
def key_reject (fl : Filters) (key : Option RVal) : Bool :=
  match key with
  | none => false
  | some k => val_truthy k && !reMatch fl.keys (str_of_val k)

/-- `matches_filter`; the `None` result models the `KeyError` raised by
`get_logical_type` on an unknown type tag. -/
def matches_filter (fl : Filters) (db_number : Nat) (key : Option RVal)
    (data_type : Option Nat) : Option Bool :=
  if dbs_reject fl db_number then some false
  else if key_reject fl key then some false
  else
    match data_type with
    | none => some true
    | some dt =>
      match get_logical_type dt with
      | none => none
      | some lt => if !fl.types.contains lt then some false else some true

/-! ### Top-level driver -/

def verify_magic_string (magic_string : List Nat) : Bool :=
  magic_string == [82, 69, 68, 73, 83]

/-- `int(version_str)` with Python `int` semantics (surrounding ASCII
whitespace and an optional sign are accepted), then the range check:
`version < 1 or version > 6` raises. -/
def verify_version (version_str : List Nat) : Option Int :=
  match pyInt version_str with
  | none => none
  | some version =>
    if version < 1 ∨ 6 < version then none else some version

/-- The parser state that survives across loop iterations:
`is_first_database`, the current `db_number`, and `self._expiry`. -/
structure PState where
  is_first_database : Bool
  db_number : Nat
  expiry : Option Nat
deriving DecidableEq

/-- The two leading expiration-opcode blocks of the loop body: opcode
252 reads an 8-byte little-endian millisecond count (times 1000 to
microseconds), opcode 253 a 4-byte second count (times 1000000); both
then read the following opcode byte.  Any other opcode passes through
with the incoming (just-cleared) expiry. -/
def readExpiryOpcodes (dt0 : Nat) (f1 : ByteStream) (expiry0 : Option Nat) :
    Option (Nat × ByteStream × Option Nat) :=
  if dt0 = REDIS_RDB_OPCODE_EXPIRETIME_MS then
    match read_unsigned_long f1 with
    | none => none
    | some (ms, f2) =>
      match read_unsigned_char f2 with
      | none => none
      | some (dt, f3) => some (dt, f3, some (ms * 1000))
  else if dt0 = REDIS_RDB_OPCODE_EXPIRETIME then
    match read_unsigned_int f1 with
    | none => none
    | some (secs, f2) =>
      match read_unsigned_char f2 with
      | none => none
      | some (dt, f3) => some (dt, f3, some (secs * 1000000))
  else some (dt0, f1, expiry0)

/-- The `while True` loop of `parse`, with fuel (each iteration
consumes at least the opcode byte, so `length + 1` fuel suffices).
Each iteration first clears `self._expiry`, reads an opcode byte,
handles the expiration opcodes 252/253, then dispatches on
database-select (254), end-of-file (255), or a type tag with the
two-stage filter query. -/
def parseLoop (fl : Filters) : Nat → PState → ByteStream → Option (List Event)
  | 0, _, _ => none
  | fuel + 1, st, f =>
    let st1 : PState := ⟨st.is_first_database, st.db_number, none⟩
    match read_unsigned_char f with
    | none => none
    | some (dt0, f1) =>
      match readExpiryOpcodes dt0 f1 st1.expiry with
      | none => none
      | some (data_type, f2, expiry) =>
        if data_type = REDIS_RDB_OPCODE_SELECTDB then
          match read_length f2 with
          | none => none
          | some (dbn, f3) =>
            match parseLoop fl fuel ⟨false, dbn, expiry⟩ f3 with
            | none => none
            | some evs =>
              some ((if st1.is_first_database then []
                     else [Event.end_database st1.db_number])
                ++ Event.start_database dbn :: evs)
        else if data_type = REDIS_RDB_OPCODE_EOF then
          some [Event.end_database st1.db_number, Event.end_rdb]
        else
          match matches_filter fl st1.db_number none none with
          | none => none
          | some true =>
            match read_string f2 with
            | none => none
            | some (key, f3) =>
              match matches_filter fl st1.db_number (some key) (some data_type) with
              | none => none
              | some true =>
                match read_object key expiry data_type f3 with
                | none => none
                | some (evs, f4) =>
                  match parseLoop fl fuel
                      ⟨st1.is_first_database, st1.db_number, expiry⟩ f4 with
                  | none => none
                  | some evs2 => some (evs ++ evs2)
              | some false =>
                match skip_object data_type f3 with
                | none => none
                | some f4 =>
                  parseLoop fl fuel ⟨st1.is_first_database, st1.db_number, expiry⟩ f4
          | some false =>
            match skip_key_and_object data_type f2 with
            | none => none
            | some f3 =>
              parseLoop fl fuel ⟨st1.is_first_database, st1.db_number, expiry⟩ f3

/-- `parse`: header verification, then the database loop.  The events
returned are the callback invocations in order. -/
def parse (fl : Filters) (f : ByteStream) : Option (List Event) :=
  match readExact 5 f with
  | none => none
  | some (magic, f1) =>
    if verify_magic_string magic then
      match readExact 4 f1 with
      | none => none
      | some (ver, f2) =>
        match verify_version ver with
        | none => none
        | some _ =>
          match parseLoop fl (f2.length + 1) ⟨true, 0, none⟩ f2 with
          | none => none
          | some evs => some (Event.start_rdb :: evs)
    else none

/-! ### Spec-side predicates used by the claims -/

/-- Every score of a skiplist-encoded sorted-set region has a length
byte in the 6-bit class (below 64), walking `n` (member, score) pairs
the way `read_object` does. -/
def zset_scores_short : Nat → ByteStream → Bool
  | 0, _ => true
  | n + 1, f =>
    match read_string f with
    | none => true
    | some (_, f1) =>
      match f1 with
      | [] => true
      | l :: f2 => decide (l < 64) && zset_scores_short n (f2.drop l)

/-- The sorted-set side condition of claim C1 on a whole tag-3 value
region. -/
def zsetOk (f : ByteStream) : Bool :=
  match read_length f with
  | none => true
  | some (n, f1) => zset_scores_short n f1

/-- Event classifiers for claim C2, keyed by the logical type name of
`DATA_TYPE_MAPPING`. -/
def isStartOf (lt : String) (key : RVal) (n : Nat) : Event → Bool
  | Event.start_hash k m _ _ => lt == "hash" && k == key && m == n
  | Event.start_set k m _ _ => lt == "set" && k == key && m == n
  | Event.start_list k m _ _ => lt == "list" && k == key && m == n
  | Event.start_sorted_set k m _ _ => lt == "sortedset" && k == key && m == n
  | _ => false

def isElemOf (lt : String) (key : RVal) : Event → Bool
  | Event.hset k _ _ => lt == "hash" && k == key
  | Event.sadd k _ => lt == "set" && k == key
  | Event.rpush k _ => lt == "list" && k == key
  | Event.zadd k _ _ => lt == "sortedset" && k == key
  | _ => false

def isEndOf (lt : String) (key : RVal) : Event → Bool
  | Event.end_hash k => lt == "hash" && k == key
  | Event.end_set k => lt == "set" && k == key
  | Event.end_list k => lt == "list" && k == key
  | Event.end_sorted_set k => lt == "sortedset" && k == key
  | _ => false

/-- Projection of an event onto the database lifecycle:
`start_database` is `true`, `end_database` is `false`. -/
def dbTag : Event → Option Bool
  | Event.start_database _ => some true
  | Event.end_database _ => some false
  | _ => none

def dbSeq (evs : List Event) : List Bool :=
  evs.filterMap dbTag

def isStartDb (ev : Event) : Bool :=
  dbTag ev == some true

def isEndDb (ev : Event) : Bool :=
  dbTag ev == some false

/-- A database-event sequence produced from inside an open database:
an `end`, optionally followed by `start` plus another such sequence. -/
def seqOpen : List Bool → Bool
  | false :: rest =>
    match rest with
    | [] => true
    | true :: l => seqOpen l
    | false :: _ => false
  | _ => false

/-- A well-formed full database-event sequence: a `start`, then
alternating, ending with an `end`. -/
def altTF : List Bool → Bool
  | true :: l => seqOpen l
  | _ => false

/-- Projection of an event onto the database lifecycle extended with
the terminal callback: `start_database` is `0`, `end_database` is `1`,
`end_rdb` is `2`. -/
def dbrTag : Event → Option Nat
  | Event.start_database _ => some 0
  | Event.end_database _ => some 1
  | Event.end_rdb => some 2
  | _ => none

def dbrSeq (evs : List Event) : List Nat :=
  evs.filterMap dbrTag

/-- The extended projection of a run from inside an open database: an
`end_database`, then either the terminal `end_rdb` and nothing
further, or a `start_database` and another such sequence. -/
def seqOpenR : List Nat → Bool
  | 1 :: rest =>
    match rest with
    | [2] => true
    | 0 :: l => seqOpenR l
    | _ => false
  | _ => false

/-- A well-formed extended projection of a whole run: a
`start_database`, then alternating `end`/`start`, with the final
`end_database` immediately followed by the terminal `end_rdb`, which
closes the sequence. -/
def altTFR : List Nat → Bool
  | 0 :: l => seqOpenR l
  | _ => false

/-- The precondition of claim C10: every back-reference distance is at
most the number of output bytes already produced at that point.  The
function walks the input exactly as `lzfRun` does, tracking only the
output length. -/
def distOk : Nat → List Nat → Nat → Bool
  | _, [], _ => true
  | 0, _ :: _, _ => true
  | fuel + 1, ctrl :: rest, outlen =>
    if ctrl < 32 then
      if rest.length < ctrl + 1 then true
      else distOk fuel (rest.drop (ctrl + 1)) (outlen + (ctrl + 1))
    else
      match lzfLength ctrl rest with
      | none => true
      | some (length, rest2) =>
        match rest2 with
        | [] => true
        | b2 :: rest3 =>
          decide ((((ctrl &&& 0x1f) <<< 8) + b2 + 1) ≤ outlen) &&
            distOk fuel rest3 (outlen + (length + 2))

end Rdb

namespace Rdb

/-! ### Bit-manipulation bridging lemmas -/

theorem and_shiftLeft_comm (x m k : Nat) :
    x &&& (m <<< k) = ((x >>> k) &&& m) <<< k := by
  apply Nat.eq_of_testBit_eq
  intro i
  simp only [Nat.testBit_and, Nat.testBit_shiftLeft, Nat.testBit_shiftRight]
  rcases le_or_lt k i with h | h
  · have : k + (i - k) = i := by omega
    simp [h, this]
  · simp [Nat.not_le_of_lt h]

theorem and_mask (x w k : Nat) :
    x &&& ((2 ^ w - 1) <<< k) = (x / 2 ^ k % 2 ^ w) * 2 ^ k := by
  rw [and_shiftLeft_comm, Nat.and_pow_two_sub_one_eq_mod,
    Nat.shiftRight_eq_div_pow, Nat.shiftLeft_eq]

theorem or_disjoint (a b n : Nat) (h : b < 2 ^ n) :
    (2 ^ n * a) ||| b = 2 ^ n * a + b :=
  (Nat.mul_add_lt_is_or h a).symm

theorem leVal_four (a b c d : Nat) :
    leVal [a, b, c, d] = a + 256 * b + 65536 * c + 16777216 * d := by
  simp [leVal]
  ring

/-- Reassembling four disjoint byte fields with `|||` is addition. -/
theorem or_bytes (a b c d : Nat) (hb : b < 256) (hc : c < 256) (hd : d < 256) :
    ((2 ^ 24 * a ||| d) ||| 2 ^ 16 * b) ||| 2 ^ 8 * c =
      2 ^ 24 * a + 2 ^ 16 * b + 2 ^ 8 * c + d := by
  rw [Nat.or_assoc, Nat.or_assoc (2 ^ 24 * a) d, Nat.or_comm d (2 ^ 16 * b ||| 2 ^ 8 * c),
    Nat.or_assoc (2 ^ 16 * b) (2 ^ 8 * c) d]
  rw [or_disjoint c d 8 (by omega)]
  rw [or_disjoint b (2 ^ 8 * c + d) 16 (by omega)]
  rw [or_disjoint a (2 ^ 16 * b + (2 ^ 8 * c + d)) 24 (by omega)]
  omega

theorem ntohl_bytes (a b c d : Nat) (ha : a < 256) (hb : b < 256)
    (hc : c < 256) (hd : d < 256) (tail : ByteStream) :
    ntohl (a :: b :: c :: d :: tail) =
      some (16777216 * a + 65536 * b + 256 * c + d, tail) := by
  have hlen : (4 : Nat) ≤ (a :: b :: c :: d :: tail).length := by
    simp
  have h4 : read_unsigned_int (a :: b :: c :: d :: tail) =
      some (leVal [a, b, c, d], tail) := by
    unfold read_unsigned_int readExact
    rw [if_pos hlen]
    simp
  simp only [ntohl, h4, leVal_four]
  have e1 : (0x000000ff : Nat) = (2 ^ 8 - 1) <<< 0 := by decide
  have e2 : (0xff000000 : Nat) = (2 ^ 8 - 1) <<< 24 := by decide
  have e3 : (0x0000ff00 : Nat) = (2 ^ 8 - 1) <<< 8 := by decide
  have e4 : (0x00ff0000 : Nat) = (2 ^ 8 - 1) <<< 16 := by decide
  rw [e1, e2, e3, e4, and_mask, and_mask, and_mask, and_mask]
  have va : (a + 256 * b + 65536 * c + 16777216 * d) / 2 ^ 0 % 2 ^ 8 = a := by omega
  have vb : (a + 256 * b + 65536 * c + 16777216 * d) / 2 ^ 8 % 2 ^ 8 = b := by omega
  have vc : (a + 256 * b + 65536 * c + 16777216 * d) / 2 ^ 16 % 2 ^ 8 = c := by omega
  have vd : (a + 256 * b + 65536 * c + 16777216 * d) / 2 ^ 24 % 2 ^ 8 = d := by omega
  rw [va, vb, vc, vd]
  simp only [Nat.shiftLeft_eq, Nat.shiftRight_eq_div_pow, Nat.zero_or]
  have sa : a * 2 ^ 0 * 2 ^ 24 = 2 ^ 24 * a := by ring
  have sb : b * 2 ^ 8 * 2 ^ 8 = 2 ^ 16 * b := by ring
  have sc : c * 2 ^ 16 / 2 ^ 8 = 2 ^ 8 * c := by omega
  have sd : d * 2 ^ 24 / 2 ^ 24 = d := by omega
  rw [sa, sb, sc, sd, or_bytes a b c d hb hc hd]
  norm_num

theorem rlwe_6bit (b : Nat) (hb : b < 64) (tail : ByteStream) :
    read_length_with_encoding (b :: tail) = some ((b, false), tail) := by
  have henc : (b &&& 0xC0) >>> 6 = 0 := by
    rw [show (0xC0 : Nat) = (2 ^ 2 - 1) <<< 6 by decide, and_mask,
      Nat.shiftRight_eq_div_pow]
    omega
  have hlow : b &&& 0x3F = b := by
    rw [show (0x3F : Nat) = 2 ^ 6 - 1 by decide, Nat.and_pow_two_sub_one_eq_mod]
    omega
  simp [read_length_with_encoding, read_unsigned_char, henc, hlow,
    REDIS_RDB_ENCVAL, REDIS_RDB_6BITLEN]

theorem rlwe_14bit (v : Nat) (hv : v < 16384) (tail : ByteStream) :
    read_length_with_encoding ((64 + v / 256) :: (v % 256) :: tail) =
      some ((v, false), tail) := by
  have henc : ((64 + v / 256) &&& 0xC0) >>> 6 = 1 := by
    rw [show (0xC0 : Nat) = (2 ^ 2 - 1) <<< 6 by decide, and_mask,
      Nat.shiftRight_eq_div_pow]
    omega
  have hlow : (64 + v / 256) &&& 0x3F = v / 256 := by
    rw [show (0x3F : Nat) = 2 ^ 6 - 1 by decide, Nat.and_pow_two_sub_one_eq_mod]
    omega
  have hcomb : ((v / 256) <<< 8) ||| (v % 256) = v := by
    rw [Nat.shiftLeft_eq, Nat.mul_comm, or_disjoint (v / 256) (v % 256) 8 (by omega)]
    omega
  simp [read_length_with_encoding, read_unsigned_char, henc, hlow, hcomb,
    REDIS_RDB_ENCVAL, REDIS_RDB_6BITLEN, REDIS_RDB_14BITLEN]

theorem rlwe_32bit (v : Nat) (hv : v < 2 ^ 32) (tail : ByteStream) :
    read_length_with_encoding
        (128 :: v / 16777216 :: v / 65536 % 256 :: v / 256 % 256 :: v % 256 :: tail) =
      some ((v, false), tail) := by
  have henc : ((128 : Nat) &&& 0xC0) >>> 6 = 2 := by decide
  have hn : ntohl (v / 16777216 :: v / 65536 % 256 :: v / 256 % 256 :: v % 256 :: tail) =
      some (16777216 * (v / 16777216) + 65536 * (v / 65536 % 256) +
        256 * (v / 256 % 256) + v % 256, tail) :=
    ntohl_bytes _ _ _ _ (by omega) (by omega) (by omega) (by omega) tail
  have hval : 16777216 * (v / 16777216) + 65536 * (v / 65536 % 256) +
      256 * (v / 256 % 256) + v % 256 = v := by omega
  simp [read_length_with_encoding, read_unsigned_char, henc, hn, hval,
    REDIS_RDB_ENCVAL, REDIS_RDB_6BITLEN, REDIS_RDB_14BITLEN]

/-- C5: for every value v below 2^32, encoding v as a length prefix under
the minimum-width class (6-bit for v < 64, 14-bit for v < 16384, 32-bit
otherwise, the latter storing the four width bytes big-endian, which the
source recovers by a little-endian read followed by `ntohl`'s byte swap)
and then decoding with `read_length_with_encoding` returns
`(v, is_encoded = false)` and consumes exactly the encoding. -/
theorem claim_C5 (v : Nat) (hv : v < 2 ^ 32) (tail : ByteStream) :
    read_length_with_encoding (encode_length_spec v ++ tail) =
      some ((v, false), tail) := by
  unfold encode_length_spec
  rcases lt_or_ge v 64 with h64 | h64
  · rw [if_pos h64]
    exact rlwe_6bit v h64 tail
  · rcases lt_or_ge v 16384 with h14 | h14
    · rw [if_neg (by omega), if_pos h14]
      exact rlwe_14bit v h14 tail
    · rw [if_neg (by omega), if_neg (by omega)]
      exact rlwe_32bit v hv tail

/-- Witness for C5 at one value in each width class. -/
theorem claim_C5_witness :
    (63 : Nat) < 2 ^ 32 ∧ (300 : Nat) < 2 ^ 32 ∧ (70000 : Nat) < 2 ^ 32 ∧
      read_length_with_encoding (encode_length_spec 63 ++ [9]) = some ((63, false), [9]) ∧
      read_length_with_encoding (encode_length_spec 300 ++ [9]) = some ((300, false), [9]) ∧
      read_length_with_encoding (encode_length_spec 70000 ++ [9]) = some ((70000, false), [9]) :=
  ⟨by norm_num, by norm_num, by norm_num,
    claim_C5 63 (by norm_num) [9], claim_C5 300 (by norm_num) [9],
    claim_C5 70000 (by norm_num) [9]⟩

/-! ### LZF lemmas -/

theorem ovCopy_length (cnt : Nat) : ∀ (out : List Nat) (ref : Nat),
    (ovCopy out ref cnt).length = out.length + cnt := by
  induction cnt with
  | zero => intro out ref; simp [ovCopy]
  | succ n ih =>
    intro out ref
    rw [show ovCopy out ref (n + 1) = ovCopy (out ++ [out.getD ref 0]) (ref + 1) n from rfl,
      ih]
    simp
    omega

theorem lzfCopy_spec (cnt : Nat) : ∀ (out : List Nat) (ref : Nat), ref < out.length →
    lzfCopy out (ref : Int) cnt = Except.ok (ovCopy out ref cnt) := by
  induction cnt with
  | zero => intro out ref _; rfl
  | succ n ih =>
    intro out ref h
    have hpy : pyGet out (ref : Int) = some (out.getD ref 0) := by
      unfold pyGet
      rw [if_pos (by omega)]
      simp [List.getElem?_eq_getElem h]
    simp only [lzfCopy, hpy]
    exact ih (out ++ [out.getD ref 0]) (ref + 1) (by simp; omega)

/-- The distance expression of the claim equals its additive form. -/
theorem lzf_dist_or (c b2 : Nat) (hb2 : b2 < 256) :
    ((c &&& 0x1f) <<< 8) ||| b2 = ((c &&& 0x1f) <<< 8) + b2 := by
  rw [Nat.shiftLeft_eq, Nat.mul_comm,
    or_disjoint (c &&& 0x1f) b2 8 (by omega)]

theorem lzfRun_enc {out comp final : List Nat} (henc : LzfEnc out comp final) :
    ∀ fuel, comp.length ≤ fuel → lzfRun fuel comp out = Except.ok final := by
  induction henc with
  | done out =>
    intro fuel _
    cases fuel <;> rfl
  | lit out c lits rest final hc hlen htail ih =>
    intro fuel hfuel
    match fuel with
    | 0 => simp at hfuel
    | f + 1 =>
      simp only [lzfRun]
      rw [if_pos hc, if_neg (by simp [hlen]),
        List.take_left' hlen, List.drop_left' hlen]
      apply ih
      simp at hfuel
      omega
  | backref out c b2 rest final hc1 hc2 hb2 hshort hdist htail ih =>
    intro fuel hfuel
    match fuel with
    | 0 => simp at hfuel
    | f + 1 =>
      have hL : lzfLength c (b2 :: rest) = some (c >>> 5, b2 :: rest) := by
        unfold lzfLength
        rw [if_neg hshort]
      have hd := hdist
      rw [lzf_dist_or c b2 hb2] at hd
      have href : ((out.length : Int) - (((c &&& 0x1f) <<< 8 : Nat) : Int)
            - (b2 : Int) - 1 : Int) =
          ((out.length - (((c &&& 0x1f) <<< 8) + b2 + 1) : Nat) : Int) := by
        omega
      simp only [lzfRun, if_neg (by omega : ¬ c < 32), hL, href,
        lzfCopy_spec _ _ _ (by omega : out.length - (((c &&& 0x1f) <<< 8) + b2 + 1) < out.length)]
      rw [lzf_dist_or c b2 hb2] at ih
      exact ih f (by simp at hfuel; omega)
  | backrefExt out c ext b2 rest final hc1 hc2 hext hb2 hlong hdist htail ih =>
    intro fuel hfuel
    match fuel with
    | 0 => simp at hfuel
    | f + 1 =>
      have hL : lzfLength c (ext :: b2 :: rest) = some (7 + ext, b2 :: rest) := by
        unfold lzfLength
        rw [if_pos hlong]
      have hd := hdist
      rw [lzf_dist_or c b2 hb2] at hd
      have href : ((out.length : Int) - (((c &&& 0x1f) <<< 8 : Nat) : Int)
            - (b2 : Int) - 1 : Int) =
          ((out.length - (((c &&& 0x1f) <<< 8) + b2 + 1) : Nat) : Int) := by
        omega
      simp only [lzfRun, if_neg (by omega : ¬ c < 32), hL, href,
        lzfCopy_spec _ _ _ (by omega : out.length - (((c &&& 0x1f) <<< 8) + b2 + 1) < out.length)]
      rw [lzf_dist_or c b2 hb2] at ih
      exact ih f (by simp at hfuel; omega)

/-- C4: for every plaintext and every valid LZF encoding of it (control
bytes below 32 introduce `c + 1` literal bytes; other control bytes a
back-reference of length `(c >>> 5) + 2`, extended by one byte when
`c >>> 5 = 7`, at distance `((c &&& 0x1f) <<< 8 ||| b2) + 1`, copied
byte-by-byte so overlapping copies extend the output),
`lzf_decompress` applied to the encoding and the plaintext's length
returns the plaintext exactly; and whenever the produced output length
differs from the declared uncompressed length it fails with the
`CorruptLzf` error. -/
theorem claim_C4 :
    (∀ comp plain : List Nat, LzfEnc [] comp plain →
      lzf_decompress comp plain.length = Except.ok plain) ∧
    (∀ (comp : List Nat) (expected : Nat) (out : List Nat),
      lzfRun comp.length comp [] = Except.ok out → out.length ≠ expected →
      lzf_decompress comp expected = Except.error LzfErr.corrupt) := by
  constructor
  · intro comp plain henc
    unfold lzf_decompress
    rw [lzfRun_enc henc comp.length (le_refl _)]
    simp
  · intro comp expected out hrun hne
    unfold lzf_decompress
    rw [hrun]
    simp [hne]

/-- Witness for C4: the encoding `[1, 97, 98, 32, 1]` (a two-byte
literal run followed by an overlapping back-reference of length 3 at
distance 2) decodes to `[97, 98, 97, 98, 97]`; and a run producing two
bytes declared as three fails with `CorruptLzf`. -/
theorem claim_C4_witness :
    lzf_decompress [1, 97, 98, 32, 1] 5 = Except.ok [97, 98, 97, 98, 97] ∧
      lzf_decompress [1, 97, 98] 3 = Except.error LzfErr.corrupt := by
  constructor
  · have henc : LzfEnc [] [1, 97, 98, 32, 1] [97, 98, 97, 98, 97] := by
      have h1 : LzfEnc [97, 98] [32, 1] [97, 98, 97, 98, 97] := by
        have h0 := LzfEnc.backref [97, 98] 32 1 [] [97, 98, 97, 98, 97]
          (by decide) (by decide) (by decide) (by decide) (by decide)
        apply h0
        exact LzfEnc.done _
      exact LzfEnc.lit [] 1 [97, 98] [32, 1] [97, 98, 97, 98, 97]
        (by decide) (by decide) h1
    exact claim_C4.1 [1, 97, 98, 32, 1] [97, 98, 97, 98, 97] henc
  · exact claim_C4.2 [1, 97, 98] 3 [97, 98] (by rfl) (by decide)

theorem distOk_no_oob : ∀ (fuel : Nat) (inp out : List Nat),
    distOk fuel inp out.length = true →
    ∀ r : Int, lzfRun fuel inp out ≠ Except.error (LzfErr.outOfRange r) := by
  intro fuel
  induction fuel with
  | zero =>
    intro inp out _ r
    cases inp <;> simp [lzfRun]
  | succ f ih =>
    intro inp out hok r
    cases inp with
    | nil => simp [lzfRun]
    | cons ctrl rest =>
      simp only [distOk] at hok
      by_cases hc : ctrl < 32
      · by_cases hsh : rest.length < ctrl + 1
        · simp only [lzfRun, if_pos hc, if_pos hsh]
          simp
        · rw [if_pos hc, if_neg hsh] at hok
          simp only [lzfRun, if_pos hc, if_neg hsh]
          have hlen : out.length + (ctrl + 1) = (out ++ rest.take (ctrl + 1)).length := by
            simp
            omega
          rw [hlen] at hok
          exact ih _ _ hok r
      · rw [if_neg hc] at hok
        cases hL : lzfLength ctrl rest with
        | none =>
          rw [hL] at hok
          simp only [lzfRun, if_neg hc, hL]
          simp
        | some p =>
          rw [hL] at hok
          obtain ⟨len, rest2⟩ := p
          cases rest2 with
          | nil =>
            simp only [lzfRun, if_neg hc, hL]
            simp
          | cons b2 rest3 =>
            rw [Bool.and_eq_true, decide_eq_true_eq] at hok
            obtain ⟨hd, hok2⟩ := hok
            have href : ((out.length : Int) - (((ctrl &&& 0x1f) <<< 8 : Nat) : Int)
                  - (b2 : Int) - 1 : Int) =
                ((out.length - (((ctrl &&& 0x1f) <<< 8) + b2 + 1) : Nat) : Int) := by
              omega
            simp only [lzfRun, if_neg hc, hL, href,
              lzfCopy_spec _ _ _
                (by omega : out.length - (((ctrl &&& 0x1f) <<< 8) + b2 + 1) < out.length)]
            have hlen2 : out.length + (len + 2) =
                (ovCopy out (out.length - (((ctrl &&& 0x1f) <<< 8) + b2 + 1))
                  (len + 2)).length := by
              rw [ovCopy_length]
            rw [hlen2] at hok2
            exact ih _ _ hok2 r

/-- C10: `lzf_decompress` performs no bounds check on back-references.
Under the precondition that every back-reference distance is at most
the number of output bytes already produced at that point (`distOk`),
every index into the output buffer is in range and the out-of-range
branch is unreachable; without that precondition, the input whose first
control byte is 32 indexes the output buffer at position -1. -/
theorem claim_C10 :
    (∀ (fuel : Nat) (inp out : List Nat), distOk fuel inp out.length = true →
      ∀ r : Int, lzfRun fuel inp out ≠ Except.error (LzfErr.outOfRange r)) ∧
    lzf_decompress [32, 0] 0 = Except.error (LzfErr.outOfRange (-1)) := by
  constructor
  · exact distOk_no_oob
  · rfl

/-- Witness for C10 on a concrete literal-only input satisfying the
distance precondition. -/
theorem claim_C10_witness :
    distOk 3 [1, 97, 98] (List.length ([] : List Nat)) = true ∧
      lzfRun 3 [1, 97, 98] ([] : List Nat) ≠ Except.error (LzfErr.outOfRange 0) :=
  ⟨by decide, claim_C10.1 3 [1, 97, 98] ([] : List Nat) (by decide) 0⟩

/-! ### Ziplist entry headers (claim C6) -/

/-- C6 (amended): every entry-header byte in 0xC0..0xCF is matched by
the `(entry_header >> 4) == 12` pattern and decodes as a signed 16-bit
little-endian integer; no byte in that range raises `CorruptZiplist`
(the claim's list of defined values is wrong for this range: 0xC1..0xCF
are decoded, not rejected). -/
theorem claim_C6 (p h b1 b2 : Nat) (rest : ByteStream)
    (hp : p ≠ 254) (h1 : 192 ≤ h) (h2 : h ≤ 207) :
    read_ziplist_entry (p :: h :: b1 :: b2 :: rest) =
      some (RVal.int (toSigned 16 (leVal [b1, b2])), rest) := by
  have h6 : h >>> 6 = 3 := by
    rw [Nat.shiftRight_eq_div_pow]
    omega
  have h4 : h >>> 4 = 12 := by
    rw [Nat.shiftRight_eq_div_pow]
    omega
  have hsh : read_signed_short (b1 :: b2 :: rest) =
      some (toSigned 16 (leVal [b1, b2]), rest) := by
    unfold read_signed_short readExact
    rw [if_pos (by simp)]
    simp
  simp only [read_ziplist_entry, read_unsigned_char, if_neg hp, h6, h4, hsh]
  norm_num

/-- Counterexample to C6 as stated: the claim calls every header byte
in 0xC0..0xCF other than 0xC0 undefined and says it fails with
`CorruptZiplist`, but header 0xC1 (193) decodes successfully as a
signed 16-bit integer. -/
theorem claim_C6_cex :
    read_ziplist_entry [0, 193, 5, 0] = some (RVal.int 5, []) := by
  decide

/-- Witness for C6 at header 0xC7 with a negative 16-bit payload. -/
theorem claim_C6_witness :
    read_ziplist_entry [9, 199, 254, 255, 3] =
      some (RVal.int (toSigned 16 (leVal [254, 255])), [3]) :=
  claim_C6 9 199 254 255 [3] (by decide) (by decide) (by decide)

/-! ### Filters (claims C7 and C9) -/

/-- C7 (amended): for every configured keys pattern and every non-empty
key, the filter accepts the key if and only if the regular expression
matches at the START of the key (Python `re.match` anchors at the
beginning, so a pattern matching only an interior substring of the key
does NOT accept it), provided the database and type axes accept. -/
theorem claim_C7 (fl : Filters) (db t : Nat) (key : List Nat) (lt : String)
    (hkey : key ≠ [])
    (hdbs : dbs_reject fl db = false)
    (hlt : get_logical_type t = some lt)
    (htype : fl.types.contains lt = true) :
    matches_filter fl db (some (RVal.bytes key)) (some t) =
      some (reMatch fl.keys key) := by
  have hne : key.isEmpty = false := by
    cases key with
    | nil => exact absurd rfl hkey
    | cons a l => rfl
  have hlt2 : DATA_TYPE_MAPPING t = some lt := hlt
  have htype2 : lt ∈ fl.types := by
    simpa using htype
  cases hm : reMatch fl.keys key with
  | false =>
    simp [matches_filter, key_reject, val_truthy, str_of_val, hdbs, hm, hne]
  | true =>
    simp [matches_filter, key_reject, val_truthy, str_of_val, hdbs, hm, hne,
      hlt, htype2]

/-- Counterexample to C7 as stated: with the pattern `bar` and the key
`xbar`, the regular expression matches an interior substring of the key
(`reSearch` holds) but the filter rejects the key, because the source
uses `re.match`, which anchors at the start. -/
theorem claim_C7_cex :
    matches_filter
        (init_filter (some ⟨none,
          some (RE.cat (RE.chr 98) (RE.cat (RE.chr 97) (RE.chr 114))), none⟩))
        0 (some (RVal.bytes [120, 98, 97, 114])) (some 0) = some false ∧
      reSearch (RE.cat (RE.chr 98) (RE.cat (RE.chr 97) (RE.chr 114)))
        [120, 98, 97, 114] = true := by
  constructor
  · decide
  · decide

/-- Witness for C7: under the default filter the key `abc` is accepted
exactly when the default pattern matches at its start. -/
theorem claim_C7_witness :
    matches_filter (init_filter none) 0 (some (RVal.bytes [97, 98, 99])) (some 0) =
      some (reMatch (init_filter none).keys [97, 98, 99]) :=
  claim_C7 (init_filter none) 0 0 [97, 98, 99] "string"
    (by decide) (by decide) (by decide) (by decide)

/-- C9: if the key argument passed to `matches_filter` is the empty
string, the keys axis never rejects it: the empty key is falsy, so the
pattern test is bypassed regardless of the configured keys regular
expression, and the key is accepted provided the database and type axes
accept. -/
theorem claim_C9 (fl : Filters) (db t : Nat) (lt : String)
    (hdbs : dbs_reject fl db = false)
    (hlt : get_logical_type t = some lt)
    (htype : fl.types.contains lt = true) :
    matches_filter fl db (some (RVal.bytes [])) (some t) = some true := by
  have hlt2 : DATA_TYPE_MAPPING t = some lt := hlt
  have htype2 : lt ∈ fl.types := by
    simpa using htype
  simp [matches_filter, key_reject, val_truthy, hdbs, hlt, htype2]

/-- Witness for C9 with a keys pattern (`z`) that matches no prefix of
the empty key, which is nevertheless accepted. -/
theorem claim_C9_witness :
    matches_filter (init_filter (some ⟨none, some (RE.chr 122), none⟩)) 0
      (some (RVal.bytes [])) (some 0) = some true :=
  claim_C9 (init_filter (some ⟨none, some (RE.chr 122), none⟩)) 0 0 "string"
    (by decide) (by decide) (by decide)

/-! ### Skip / read consumption (claim C1) -/

theorem readExact_elim {n : Nat} {f : ByteStream} {bs : List Nat} {r : ByteStream}
    (h : readExact n f = some (bs, r)) : bs = f.take n ∧ r = f.drop n := by
  unfold readExact at h
  split at h
  · simp at h
    exact ⟨h.1.symm, h.2.symm⟩
  · simp at h

/-- `skip_string` consumes exactly the bytes a successful `read_string`
consumes. -/
theorem skip_string_of_read_string {f : ByteStream} {v : RVal} {rest : ByteStream}
    (h : read_string f = some (v, rest)) : skip_string f = some rest := by
  unfold read_string at h
  unfold skip_string
  cases hl : read_length_with_encoding f with
  | none => rw [hl] at h; simp at h
  | some p =>
    obtain ⟨⟨length, is_encoded⟩, f1⟩ := p
    simp only [hl] at h ⊢
    cases is_encoded with
    | false =>
      simp only [Bool.false_eq_true, if_false] at h ⊢
      simp only [Option.some.injEq, Prod.mk.injEq] at h
      simp [skip, h.2]
    | true =>
      simp only [if_true] at h ⊢
      by_cases h8 : length = REDIS_RDB_ENC_INT8
      · rw [if_pos h8] at h ⊢
        cases f1 with
        | nil => simp [read_signed_char] at h
        | cons b r =>
          simp [read_signed_char] at h
          obtain ⟨h1, h2⟩ := h
          simp [skip, h2]
      · rw [if_neg h8] at h ⊢
        by_cases h16 : length = REDIS_RDB_ENC_INT16
        · rw [if_pos h16] at h ⊢
          cases hre : readExact 2 f1 with
          | none => simp [read_signed_short, hre] at h
          | some q =>
            obtain ⟨bs, r⟩ := q
            obtain ⟨hbs, hr⟩ := readExact_elim hre
            simp [read_signed_short, hre] at h
            obtain ⟨h1, h2⟩ := h
            simp [skip, ← h2, hr]
        · rw [if_neg h16] at h ⊢
          by_cases h32 : length = REDIS_RDB_ENC_INT32
          · rw [if_pos h32] at h ⊢
            cases hre : readExact 4 f1 with
            | none => simp [read_signed_int, hre] at h
            | some q =>
              obtain ⟨bs, r⟩ := q
              obtain ⟨hbs, hr⟩ := readExact_elim hre
              simp [read_signed_int, hre] at h
              obtain ⟨h1, h2⟩ := h
              simp [skip, ← h2, hr]
          · rw [if_neg h32] at h ⊢
            by_cases hlzf : length = REDIS_RDB_ENC_LZF
            · rw [if_pos hlzf] at h ⊢
              cases hc : read_length f1 with
              | none => rw [hc] at h; simp at h
              | some q =>
                obtain ⟨clen, f2⟩ := q
                simp only [hc] at h ⊢
                cases hc2 : read_length f2 with
                | none => rw [hc2] at h; simp at h
                | some q2 =>
                  obtain ⟨l, f3⟩ := q2
                  simp only [hc2] at h ⊢
                  cases hd : lzf_decompress (f3.take clen) l with
                  | error e => rw [hd] at h; simp at h
                  | ok out =>
                    simp only [hd, Option.some.injEq, Prod.mk.injEq] at h
                    simp [skip, h.2]
            · rw [if_neg hlzf] at h ⊢
              simp only [Option.some.injEq, Prod.mk.injEq] at h
              simp [skip, h.2]

theorem skipN_of_readN : ∀ (n : Nat) (f : ByteStream) (vs : List RVal)
    (rest : ByteStream), readNStrings n f = some (vs, rest) →
    skipNStrings n f = some rest := by
  intro n
  induction n with
  | zero =>
    intro f vs rest h
    simp only [readNStrings, Option.some.injEq, Prod.mk.injEq] at h
    simp [skipNStrings, h.2]
  | succ m ih =>
    intro f vs rest h
    simp only [readNStrings] at h
    cases hs : read_string f with
    | none => rw [hs] at h; simp at h
    | some p =>
      obtain ⟨v, f1⟩ := p
      simp only [hs] at h
      cases hN : readNStrings m f1 with
      | none => rw [hN] at h; simp at h
      | some q =>
        obtain ⟨vs2, f2⟩ := q
        simp only [hN, Option.some.injEq, Prod.mk.injEq] at h
        simp only [skipNStrings, skip_string_of_read_string hs]
        rw [ih f1 vs2 f2 hN, h.2]

theorem skipN_of_readNPairs : ∀ (n : Nat) (f : ByteStream) (ps : List (RVal × RVal))
    (rest : ByteStream), readNPairs n f = some (ps, rest) →
    skipNStrings (n * 2) f = some rest := by
  intro n
  induction n with
  | zero =>
    intro f ps rest h
    simp only [readNPairs, Option.some.injEq, Prod.mk.injEq] at h
    simp [skipNStrings, h.2]
  | succ m ih =>
    intro f ps rest h
    simp only [readNPairs] at h
    cases hs1 : read_string f with
    | none => rw [hs1] at h; simp at h
    | some p1 =>
      obtain ⟨a, f1⟩ := p1
      simp only [hs1] at h
      cases hs2 : read_string f1 with
      | none => rw [hs2] at h; simp at h
      | some p2 =>
        obtain ⟨b, f2⟩ := p2
        simp only [hs2] at h
        cases hN : readNPairs m f2 with
        | none => rw [hN] at h; simp at h
        | some q =>
          obtain ⟨ps2, f3⟩ := q
          simp only [hN, Option.some.injEq, Prod.mk.injEq] at h
          rw [show (m + 1) * 2 = m * 2 + 1 + 1 from by ring]
          simp only [skipNStrings, skip_string_of_read_string hs1,
            skip_string_of_read_string hs2]
          rw [ih f2 ps2 f3 hN, h.2]

/-- A one-byte length below 64 is its own 6-bit prefix: `skip_string`
consumes exactly that prefix and `l` payload bytes. -/
theorem skip_string_6bit {l : Nat} (hl : l < 64) (f2 : ByteStream) :
    skip_string (l :: f2) = some (f2.drop l) := by
  unfold skip_string
  rw [rlwe_6bit l hl f2]
  simp [skip]

theorem skipN_of_readZSetPairs : ∀ (n : Nat) (f : ByteStream)
    (ps : List (RVal × List Nat)) (rest : ByteStream),
    readZSetPairs n f = some (ps, rest) → zset_scores_short n f = true →
    skipNStrings (n * 2) f = some rest := by
  intro n
  induction n with
  | zero =>
    intro f ps rest h _
    simp only [readZSetPairs, Option.some.injEq, Prod.mk.injEq] at h
    simp [skipNStrings, h.2]
  | succ m ih =>
    intro f ps rest h hshort
    simp only [readZSetPairs] at h
    simp only [zset_scores_short] at hshort
    cases hs : read_string f with
    | none => rw [hs] at h; simp at h
    | some p =>
      obtain ⟨member, f1⟩ := p
      simp only [hs] at h hshort
      cases f1 with
      | nil => simp [read_unsigned_char] at h
      | cons l f2 =>
        simp only [read_unsigned_char] at h
        simp only [Bool.and_eq_true, decide_eq_true_eq] at hshort
        obtain ⟨hl64, hshort2⟩ := hshort
        cases hN : readZSetPairs m (f2.drop l) with
        | none => rw [hN] at h; simp at h
        | some q =>
          obtain ⟨ps2, f3⟩ := q
          simp only [hN, Option.some.injEq, Prod.mk.injEq] at h
          rw [show (m + 1) * 2 = m * 2 + 1 + 1 from by ring]
          simp only [skipNStrings, skip_string_of_read_string hs,
            skip_string_6bit hl64]
          rw [ih (f2.drop l) ps2 f3 hN hshort2, h.2]

/-! ### Reader length lemmas -/

theorem readNStrings_length : ∀ (n : Nat) (f : ByteStream) (vs : List RVal)
    (rest : ByteStream), readNStrings n f = some (vs, rest) → vs.length = n := by
  intro n
  induction n with
  | zero =>
    intro f vs rest h
    simp only [readNStrings, Option.some.injEq, Prod.mk.injEq] at h
    simp [← h.1]
  | succ m ih =>
    intro f vs rest h
    simp only [readNStrings] at h
    cases hs : read_string f with
    | none => simp [hs] at h
    | some p =>
      obtain ⟨v, f1⟩ := p
      simp only [hs] at h
      cases hN : readNStrings m f1 with
      | none => simp [hN] at h
      | some q =>
        obtain ⟨vs2, f2⟩ := q
        simp only [hN, Option.some.injEq, Prod.mk.injEq] at h
        rw [← h.1]
        simp [ih f1 vs2 f2 hN]

theorem readNPairs_length : ∀ (n : Nat) (f : ByteStream) (ps : List (RVal × RVal))
    (rest : ByteStream), readNPairs n f = some (ps, rest) → ps.length = n := by
  intro n
  induction n with
  | zero =>
    intro f ps rest h
    simp only [readNPairs, Option.some.injEq, Prod.mk.injEq] at h
    simp [← h.1]
  | succ m ih =>
    intro f ps rest h
    simp only [readNPairs] at h
    cases hs1 : read_string f with
    | none => simp [hs1] at h
    | some p1 =>
      obtain ⟨a, f1⟩ := p1
      simp only [hs1] at h
      cases hs2 : read_string f1 with
      | none => simp [hs2] at h
      | some p2 =>
        obtain ⟨b, f2⟩ := p2
        simp only [hs2] at h
        cases hN : readNPairs m f2 with
        | none => simp [hN] at h
        | some q =>
          obtain ⟨ps2, f3⟩ := q
          simp only [hN, Option.some.injEq, Prod.mk.injEq] at h
          rw [← h.1]
          simp [ih f2 ps2 f3 hN]

theorem readZSetPairs_length : ∀ (n : Nat) (f : ByteStream)
    (ps : List (RVal × List Nat)) (rest : ByteStream),
    readZSetPairs n f = some (ps, rest) → ps.length = n := by
  intro n
  induction n with
  | zero =>
    intro f ps rest h
    simp only [readZSetPairs, Option.some.injEq, Prod.mk.injEq] at h
    simp [← h.1]
  | succ m ih =>
    intro f ps rest h
    simp only [readZSetPairs] at h
    cases hs : read_string f with
    | none => simp [hs] at h
    | some p =>
      obtain ⟨member, f1⟩ := p
      simp only [hs] at h
      cases f1 with
      | nil => simp [read_unsigned_char] at h
      | cons l f2 =>
        simp only [read_unsigned_char] at h
        cases hN : readZSetPairs m (f2.drop l) with
        | none => simp [hN] at h
        | some q =>
          obtain ⟨ps2, f3⟩ := q
          simp only [hN, Option.some.injEq, Prod.mk.injEq] at h
          rw [← h.1]
          simp [ih (f2.drop l) ps2 f3 hN]

theorem readZiplistEntries_length : ∀ (n : Nat) (b : ByteStream) (vs : List RVal)
    (rest : ByteStream), readZiplistEntries n b = some (vs, rest) → vs.length = n := by
  intro n
  induction n with
  | zero =>
    intro b vs rest h
    simp only [readZiplistEntries, Option.some.injEq, Prod.mk.injEq] at h
    simp [← h.1]
  | succ m ih =>
    intro b vs rest h
    simp only [readZiplistEntries] at h
    cases hs : read_ziplist_entry b with
    | none => simp [hs] at h
    | some p =>
      obtain ⟨v, b1⟩ := p
      simp only [hs] at h
      cases hN : readZiplistEntries m b1 with
      | none => simp [hN] at h
      | some q =>
        obtain ⟨vs2, b2⟩ := q
        simp only [hN, Option.some.injEq, Prod.mk.injEq] at h
        rw [← h.1]
        simp [ih b1 vs2 b2 hN]

theorem readZiplistPairs_length : ∀ (n : Nat) (b : ByteStream)
    (ps : List (RVal × RVal)) (rest : ByteStream),
    readZiplistPairs n b = some (ps, rest) → ps.length = n := by
  intro n
  induction n with
  | zero =>
    intro b ps rest h
    simp only [readZiplistPairs, Option.some.injEq, Prod.mk.injEq] at h
    simp [← h.1]
  | succ m ih =>
    intro b ps rest h
    simp only [readZiplistPairs] at h
    cases hs1 : read_ziplist_entry b with
    | none => simp [hs1] at h
    | some p1 =>
      obtain ⟨x, b1⟩ := p1
      simp only [hs1] at h
      cases hs2 : read_ziplist_entry b1 with
      | none => simp [hs2] at h
      | some p2 =>
        obtain ⟨y, b2⟩ := p2
        simp only [hs2] at h
        cases hN : readZiplistPairs m b2 with
        | none => simp [hN] at h
        | some q =>
          obtain ⟨ps2, b3⟩ := q
          simp only [hN, Option.some.injEq, Prod.mk.injEq] at h
          rw [← h.1]
          simp [ih b2 ps2 b3 hN]

theorem readIntsetEntries_length : ∀ (enc n : Nat) (b : ByteStream) (es : List Nat)
    (rest : ByteStream), readIntsetEntries enc n b = some (es, rest) →
    es.length = n := by
  intro enc n
  induction n with
  | zero =>
    intro b es rest h
    simp only [readIntsetEntries, Option.some.injEq, Prod.mk.injEq] at h
    simp [← h.1]
  | succ m ih =>
    intro b es rest h
    simp only [readIntsetEntries] at h
    cases hs : (if enc = 8 then read_unsigned_long b
        else if enc = 4 then read_unsigned_int b
        else if enc = 2 then read_unsigned_short b
        else none) with
    | none => simp [hs] at h
    | some p =>
      obtain ⟨en, b1⟩ := p
      simp only [hs] at h
      cases hN : readIntsetEntries enc m b1 with
      | none => simp [hN] at h
      | some q =>
        obtain ⟨es2, b2⟩ := q
        simp only [hN, Option.some.injEq, Prod.mk.injEq] at h
        rw [← h.1]
        simp [ih b1 es2 b2 hN]

/-- Every event the zipmap record loop emits is an `hset` for the
current key. -/
theorem readZipmapRecords_hset : ∀ (fuel : Nat) (key : RVal) (b : ByteStream)
    (evs : List Event) (rest : ByteStream),
    readZipmapRecords key fuel b = some (evs, rest) →
    ∀ ev ∈ evs, ∃ k v, ev = Event.hset key k v := by
  intro fuel
  induction fuel with
  | zero =>
    intro key b evs rest h
    simp [readZipmapRecords] at h
  | succ m ih =>
    intro key b evs rest h
    simp only [readZipmapRecords] at h
    cases hn1 : read_zipmap_next_length b with
    | none => simp [hn1] at h
    | some p1 =>
      obtain ⟨o1, b1⟩ := p1
      simp only [hn1] at h
      cases o1 with
      | none =>
        simp only [Option.some.injEq, Prod.mk.injEq] at h
        rw [← h.1]
        intro ev hev
        simp at hev
      | some next_length =>
        cases hn2 : read_zipmap_next_length (b1.drop next_length) with
        | none => simp [hn2] at h
        | some p2 =>
          obtain ⟨o2, b3⟩ := p2
          simp only [hn2] at h
          cases o2 with
          | none => simp at h
          | some vlen =>
            cases b3 with
            | nil => simp [read_unsigned_char] at h
            | cons free b4 =>
              simp only [read_unsigned_char] at h
              cases hr : readZipmapRecords key m (skip (b4.drop vlen) free) with
              | none => simp [hr] at h
              | some q =>
                obtain ⟨evs2, b6⟩ := q
                simp only [hr, Option.some.injEq, Prod.mk.injEq] at h
                rw [← h.1]
                intro ev hev
                rcases List.mem_cons.mp hev with hev | hev
                · exact ⟨_, _, hev⟩
                · exact ih key _ evs2 b6 hr ev hev

/-! ### Packed-reader elimination lemmas -/

theorem read_intset_elim {key : RVal} {e : Option Nat} {f : ByteStream}
    {evs : List Event} {rest : ByteStream}
    (h : read_intset key e f = some (evs, rest)) :
    (∃ raw, read_string f = some (raw, rest)) ∧
      ∃ (num : Nat) (info : Info) (entries : List Nat), entries.length = num ∧
        evs = Event.start_set key num e info
          :: entries.map (fun en => Event.sadd key (RVal.int (Int.ofNat en)))
          ++ [Event.end_set key] := by
  unfold read_intset at h
  cases hs : read_string f with
  | none => simp [hs] at h
  | some p =>
    obtain ⟨raw, f1⟩ := p
    simp only [hs] at h
    cases ht : toBuff raw with
    | none => simp [ht] at h
    | some buff =>
      simp only [ht] at h
      cases h1 : read_unsigned_int buff with
      | none => simp [h1] at h
      | some q1 =>
        obtain ⟨enc, b1⟩ := q1
        simp only [h1] at h
        cases h2 : read_unsigned_int b1 with
        | none => simp [h2] at h
        | some q2 =>
          obtain ⟨num, b2⟩ := q2
          simp only [h2] at h
          cases h3 : readIntsetEntries enc num b2 with
          | none => simp [h3] at h
          | some q3 =>
            obtain ⟨entries, b3⟩ := q3
            simp only [h3, Option.some.injEq, Prod.mk.injEq] at h
            refine ⟨⟨raw, by rw [h.2]⟩, num, ⟨"intset", some buff.length⟩, entries,
              readIntsetEntries_length enc num b2 entries b3 h3, h.1.symm⟩

theorem read_ziplist_elim {key : RVal} {e : Option Nat} {f : ByteStream}
    {evs : List Event} {rest : ByteStream}
    (h : read_ziplist key e f = some (evs, rest)) :
    (∃ raw, read_string f = some (raw, rest)) ∧
      ∃ (num : Nat) (info : Info) (vals : List RVal), vals.length = num ∧
        evs = Event.start_list key num e info
          :: vals.map (fun v => Event.rpush key v)
          ++ [Event.end_list key] := by
  unfold read_ziplist at h
  cases hs : read_string f with
  | none => simp [hs] at h
  | some p =>
    obtain ⟨raw, f1⟩ := p
    simp only [hs] at h
    cases ht : toBuff raw with
    | none => simp [ht] at h
    | some buff =>
      simp only [ht] at h
      cases h1 : read_unsigned_int buff with
      | none => simp [h1] at h
      | some q1 =>
        obtain ⟨zlb, b1⟩ := q1
        simp only [h1] at h
        cases h2 : read_unsigned_int b1 with
        | none => simp [h2] at h
        | some q2 =>
          obtain ⟨toff, b2⟩ := q2
          simp only [h2] at h
          cases h3 : read_unsigned_short b2 with
          | none => simp [h3] at h
          | some q3 =>
            obtain ⟨num, b3⟩ := q3
            simp only [h3] at h
            cases h4 : readZiplistEntries num b3 with
            | none => simp [h4] at h
            | some q4 =>
              obtain ⟨vals, b4⟩ := q4
              simp only [h4] at h
              cases b4 with
              | nil => simp [read_unsigned_char] at h
              | cons zend b5 =>
                simp only [read_unsigned_char] at h
                by_cases hz : zend ≠ 255
                · simp [hz] at h
                · simp only [hz, if_false] at h
                  simp only [Option.some.injEq, Prod.mk.injEq] at h
                  refine ⟨⟨raw, by rw [h.2]⟩, num, ⟨"ziplist", some buff.length⟩, vals,
                    readZiplistEntries_length num b3 vals (zend :: b5) h4, h.1.symm⟩

theorem read_zset_from_ziplist_elim {key : RVal} {e : Option Nat} {f : ByteStream}
    {evs : List Event} {rest : ByteStream}
    (h : read_zset_from_ziplist key e f = some (evs, rest)) :
    (∃ raw, read_string f = some (raw, rest)) ∧
      ∃ (num : Nat) (info : Info) (pairs : List (RVal × RVal)), pairs.length = num ∧
        evs = Event.start_sorted_set key num e info
          :: pairs.map (fun p => Event.zadd key p.2 p.1)
          ++ [Event.end_sorted_set key] := by
  unfold read_zset_from_ziplist at h
  cases hs : read_string f with
  | none => simp [hs] at h
  | some p =>
    obtain ⟨raw, f1⟩ := p
    simp only [hs] at h
    cases ht : toBuff raw with
    | none => simp [ht] at h
    | some buff =>
      simp only [ht] at h
      cases h1 : read_unsigned_int buff with
      | none => simp [h1] at h
      | some q1 =>
        obtain ⟨zlb, b1⟩ := q1
        simp only [h1] at h
        cases h2 : read_unsigned_int b1 with
        | none => simp [h2] at h
        | some q2 =>
          obtain ⟨toff, b2⟩ := q2
          simp only [h2] at h
          cases h3 : read_unsigned_short b2 with
          | none => simp [h3] at h
          | some q3 =>
            obtain ⟨num, b3⟩ := q3
            simp only [h3] at h
            by_cases hodd : num % 2 ≠ 0
            · simp [hodd] at h
            · simp only [hodd, if_false] at h
              cases h4 : readZiplistPairs (num / 2) b3 with
              | none => simp [h4] at h
              | some q4 =>
                obtain ⟨pairs, b4⟩ := q4
                simp only [h4] at h
                cases b4 with
                | nil => simp [read_unsigned_char] at h
                | cons zend b5 =>
                  simp only [read_unsigned_char] at h
                  by_cases hz : zend ≠ 255
                  · simp [hz] at h
                  · simp only [hz, if_false] at h
                    simp only [Option.some.injEq, Prod.mk.injEq] at h
                    refine ⟨⟨raw, by rw [h.2]⟩, num / 2, ⟨"ziplist", some buff.length⟩,
                      pairs,
                      readZiplistPairs_length (num / 2) b3 pairs (zend :: b5) h4,
                      h.1.symm⟩

theorem read_hash_from_ziplist_elim {key : RVal} {e : Option Nat} {f : ByteStream}
    {evs : List Event} {rest : ByteStream}
    (h : read_hash_from_ziplist key e f = some (evs, rest)) :
    (∃ raw, read_string f = some (raw, rest)) ∧
      ∃ (num : Nat) (info : Info) (pairs : List (RVal × RVal)), pairs.length = num ∧
        evs = Event.start_hash key num e info
          :: pairs.map (fun p => Event.hset key p.1 p.2)
          ++ [Event.end_hash key] := by
  unfold read_hash_from_ziplist at h
  cases hs : read_string f with
  | none => simp [hs] at h
  | some p =>
    obtain ⟨raw, f1⟩ := p
    simp only [hs] at h
    cases ht : toBuff raw with
    | none => simp [ht] at h
    | some buff =>
      simp only [ht] at h
      cases h1 : read_unsigned_int buff with
      | none => simp [h1] at h
      | some q1 =>
        obtain ⟨zlb, b1⟩ := q1
        simp only [h1] at h
        cases h2 : read_unsigned_int b1 with
        | none => simp [h2] at h
        | some q2 =>
          obtain ⟨toff, b2⟩ := q2
          simp only [h2] at h
          cases h3 : read_unsigned_short b2 with
          | none => simp [h3] at h
          | some q3 =>
            obtain ⟨num, b3⟩ := q3
            simp only [h3] at h
            by_cases hodd : num % 2 ≠ 0
            · simp [hodd] at h
            · simp only [hodd, if_false] at h
              cases h4 : readZiplistPairs (num / 2) b3 with
              | none => simp [h4] at h
              | some q4 =>
                obtain ⟨pairs, b4⟩ := q4
                simp only [h4] at h
                cases b4 with
                | nil => simp [read_unsigned_char] at h
                | cons zend b5 =>
                  simp only [read_unsigned_char] at h
                  by_cases hz : zend ≠ 255
                  · simp [hz] at h
                  · simp only [hz, if_false] at h
                    simp only [Option.some.injEq, Prod.mk.injEq] at h
                    refine ⟨⟨raw, by rw [h.2]⟩, num / 2, ⟨"ziplist", some buff.length⟩,
                      pairs,
                      readZiplistPairs_length (num / 2) b3 pairs (zend :: b5) h4,
                      h.1.symm⟩

theorem read_zipmap_elim {key : RVal} {e : Option Nat} {f : ByteStream}
    {evs : List Event} {rest : ByteStream}
    (h : read_zipmap key e f = some (evs, rest)) :
    (∃ raw, read_string f = some (raw, rest)) ∧
      ∃ (num : Nat) (info : Info) (hsets : List Event),
        (∀ ev ∈ hsets, ∃ k v, ev = Event.hset key k v) ∧
        evs = Event.start_hash key num e info :: hsets ++ [Event.end_hash key] := by
  unfold read_zipmap at h
  cases hs : read_string f with
  | none => simp [hs] at h
  | some p =>
    obtain ⟨raw, f1⟩ := p
    simp only [hs] at h
    cases ht : toBuff raw with
    | none => simp [ht] at h
    | some buff =>
      simp only [ht] at h
      cases buff with
      | nil => simp [read_unsigned_char] at h
      | cons num b1 =>
        simp only [read_unsigned_char] at h
        cases hr : readZipmapRecords key (b1.length + 1) b1 with
        | none => simp [hr] at h
        | some q =>
          obtain ⟨hsets, b2⟩ := q
          simp only [hr, Option.some.injEq, Prod.mk.injEq] at h
          exact ⟨⟨raw, by rw [h.2]⟩, num, ⟨"zipmap", some (num :: b1).length⟩, hsets,
            readZipmapRecords_hset (b1.length + 1) key b1 hsets b2 hr, h.1.symm⟩

/-- C1 (amended): for every type tag other than the non-packed sorted
set (tag 3), the skip path consumes exactly the region the emit path
consumes: whenever `read_object` succeeds, `skip_object` succeeds with
the same remaining stream, and likewise `skip_string` mirrors
`read_string` for the key.  For tag 3 the same holds only under the
extra condition that every score length byte is below 64 (the 6-bit
prefix class): the skip path re-reads each one-byte-length-prefixed
ASCII score as a general length-prefixed string, which consumes the
same region as the emit path's raw one-byte-length read exactly in
that class. -/
theorem claim_C1 :
    (∀ (key : RVal) (e : Option Nat) (t : Nat) (f : ByteStream) (evs : List Event)
      (rest : ByteStream), t ≠ REDIS_RDB_TYPE_ZSET →
      read_object key e t f = some (evs, rest) → skip_object t f = some rest) ∧
    (∀ (key : RVal) (e : Option Nat) (f : ByteStream) (evs : List Event)
      (rest : ByteStream),
      read_object key e REDIS_RDB_TYPE_ZSET f = some (evs, rest) →
      zsetOk f = true → skip_object REDIS_RDB_TYPE_ZSET f = some rest) ∧
    (∀ (f : ByteStream) (v : RVal) (rest : ByteStream),
      read_string f = some (v, rest) → skip_string f = some rest) := by
  refine ⟨?_, ?_, fun f v rest h => skip_string_of_read_string h⟩
  · intro key e t f evs rest hne h
    unfold read_object at h
    unfold skip_object
    by_cases h0 : t = REDIS_RDB_TYPE_STRING
    · rw [if_pos h0] at h ⊢
      cases hs : read_string f with
      | none => simp [hs] at h
      | some p =>
        obtain ⟨val, f1⟩ := p
        simp only [hs, Option.some.injEq, Prod.mk.injEq] at h
        simp only [skipNStrings, skip_string_of_read_string hs]
        rw [h.2]
    · rw [if_neg h0] at h ⊢
      by_cases h1 : t = REDIS_RDB_TYPE_LIST
      · rw [if_pos h1] at h ⊢
        cases hl : read_length f with
        | none => simp [hl] at h
        | some p =>
          obtain ⟨n, f1⟩ := p
          simp only [hl] at h
          show skipNStrings n f1 = some rest
          cases hN : readNStrings n f1 with
          | none => simp [hN] at h
          | some q =>
            obtain ⟨vs, f2⟩ := q
            simp only [hN, Option.some.injEq, Prod.mk.injEq] at h
            rw [skipN_of_readN n f1 vs f2 hN, h.2]
      · rw [if_neg h1] at h ⊢
        by_cases h2 : t = REDIS_RDB_TYPE_SET
        · rw [if_pos h2] at h ⊢
          cases hl : read_length f with
          | none => simp [hl] at h
          | some p =>
            obtain ⟨n, f1⟩ := p
            simp only [hl] at h
            show skipNStrings n f1 = some rest
            cases hN : readNStrings n f1 with
            | none => simp [hN] at h
            | some q =>
              obtain ⟨vs, f2⟩ := q
              simp only [hN, Option.some.injEq, Prod.mk.injEq] at h
              rw [skipN_of_readN n f1 vs f2 hN, h.2]
        · rw [if_neg h2] at h ⊢
          rw [if_neg hne] at h ⊢
          by_cases h4 : t = REDIS_RDB_TYPE_HASH
          · rw [if_pos h4] at h ⊢
            cases hl : read_length f with
            | none => simp [hl] at h
            | some p =>
              obtain ⟨n, f1⟩ := p
              simp only [hl] at h
              show skipNStrings (n * 2) f1 = some rest
              cases hN : readNPairs n f1 with
              | none => simp [hN] at h
              | some q =>
                obtain ⟨ps, f2⟩ := q
                simp only [hN, Option.some.injEq, Prod.mk.injEq] at h
                rw [skipN_of_readNPairs n f1 ps f2 hN, h.2]
          · rw [if_neg h4] at h ⊢
            by_cases h9 : t = REDIS_RDB_TYPE_HASH_ZIPMAP
            · rw [if_pos h9] at h ⊢
              obtain ⟨⟨raw, hs⟩, _⟩ := read_zipmap_elim h
              simp only [skipNStrings, skip_string_of_read_string hs]
            · rw [if_neg h9] at h ⊢
              by_cases h10 : t = REDIS_RDB_TYPE_LIST_ZIPLIST
              · rw [if_pos h10] at h ⊢
                obtain ⟨⟨raw, hs⟩, _⟩ := read_ziplist_elim h
                simp only [skipNStrings, skip_string_of_read_string hs]
              · rw [if_neg h10] at h ⊢
                by_cases h11 : t = REDIS_RDB_TYPE_SET_INTSET
                · rw [if_pos h11] at h ⊢
                  obtain ⟨⟨raw, hs⟩, _⟩ := read_intset_elim h
                  simp only [skipNStrings, skip_string_of_read_string hs]
                · rw [if_neg h11] at h ⊢
                  by_cases h12 : t = REDIS_RDB_TYPE_ZSET_ZIPLIST
                  · rw [if_pos h12] at h ⊢
                    obtain ⟨⟨raw, hs⟩, _⟩ := read_zset_from_ziplist_elim h
                    simp only [skipNStrings, skip_string_of_read_string hs]
                  · rw [if_neg h12] at h ⊢
                    by_cases h13 : t = REDIS_RDB_TYPE_HASH_ZIPLIST
                    · rw [if_pos h13] at h ⊢
                      obtain ⟨⟨raw, hs⟩, _⟩ := read_hash_from_ziplist_elim h
                      simp only [skipNStrings, skip_string_of_read_string hs]
                    · rw [if_neg h13] at h ⊢
                      simp at h
  · intro key e f evs rest h hok
    unfold read_object at h
    unfold skip_object
    rw [if_neg (by decide), if_neg (by decide), if_neg (by decide),
      if_pos rfl] at h ⊢
    unfold zsetOk at hok
    cases hl : read_length f with
    | none => simp [hl] at h
    | some p =>
      obtain ⟨n, f1⟩ := p
      simp only [hl] at h hok
      show skipNStrings (n * 2) f1 = some rest
      cases hN : readZSetPairs n f1 with
      | none => simp [hN] at h
      | some q =>
        obtain ⟨ps, f2⟩ := q
        simp only [hN, Option.some.injEq, Prod.mk.injEq] at h
        rw [skipN_of_readZSetPairs n f1 ps f2 hN hok, h.2]

/-- Counterexample to C1 as stated: on a non-packed sorted set with one
member and a score-length byte of 64, the emit path consumes the whole
region (one member, then 1 + 64 score bytes) while the skip path reads
the 64 byte as a 14-bit length prefix and consumes a different region,
leaving 14 bytes behind. -/
theorem claim_C1_cex :
    (read_object (RVal.bytes [107]) none 3
        (1 :: 0 :: 64 :: List.replicate 64 49)).map (fun p => p.2) = some [] ∧
      skip_object 3 (1 :: 0 :: 64 :: List.replicate 64 49) =
        some (List.replicate 14 49) := by
  constructor
  · decide
  · decide

/-- Witness for C1: a hash (tag 4), a ziplist-backed list (tag 10), a
well-behaved sorted set (tag 3), and a key string. -/
theorem claim_C1_witness :
    skip_object 4 [2, 1, 97, 1, 98, 1, 99, 1, 100, 7] = some [7] ∧
      skip_object 3 [1, 1, 120, 3, 49, 46, 53, 9, 9] = some [9, 9] ∧
      skip_string [3, 102, 111, 111, 8] = some [8] := by
  refine ⟨?_, ?_, ?_⟩
  · exact claim_C1.1 (RVal.bytes [107]) none 4 [2, 1, 97, 1, 98, 1, 99, 1, 100, 7]
      [Event.start_hash (RVal.bytes [107]) 2 none ⟨"hashtable", none⟩,
       Event.hset (RVal.bytes [107]) (RVal.bytes [97]) (RVal.bytes [98]),
       Event.hset (RVal.bytes [107]) (RVal.bytes [99]) (RVal.bytes [100]),
       Event.end_hash (RVal.bytes [107])] [7] (by decide) (by decide)
  · exact claim_C1.2.1 (RVal.bytes [107]) none [1, 1, 120, 3, 49, 46, 53, 9, 9]
      [Event.start_sorted_set (RVal.bytes [107]) 1 none ⟨"skiplist", none⟩,
       Event.zadd (RVal.bytes [107]) (RVal.bytes [49, 46, 53]) (RVal.bytes [120]),
       Event.end_sorted_set (RVal.bytes [107])] [9, 9] (by decide) (by decide)
  · exact claim_C1.2.2 [3, 102, 111, 111, 8] (RVal.bytes [102, 111, 111]) [8]
      (by decide)

/-- C2 (amended): for every successful `read_object` of a non-string
type tag, the emitted events are exactly one `start_X(key, n, ...)`,
then element callbacks of the matching kind for that key, then the
matching `end_X(key)`; and for every encoding EXCEPT the zipmap-packed
hash the number of element callbacks equals `n`.  For the zipmap the
header count byte `n` is advisory and the number of `hset` callbacks is
the number of records before the zipmap-end byte, which can differ
from `n`. -/
theorem claim_C2 (key : RVal) (e : Option Nat) (t : Nat) (f : ByteStream)
    (evs : List Event) (rest : ByteStream) (lt : String)
    (h : read_object key e t f = some (evs, rest))
    (ht : t ≠ REDIS_RDB_TYPE_STRING)
    (hlt : DATA_TYPE_MAPPING t = some lt) :
    ∃ (n : Nat) (startEv endEv : Event) (elems : List Event),
      evs = startEv :: elems ++ [endEv] ∧
      isStartOf lt key n startEv = true ∧
      (∀ ev ∈ elems, isElemOf lt key ev = true) ∧
      isEndOf lt key endEv = true ∧
      (t ≠ REDIS_RDB_TYPE_HASH_ZIPMAP → elems.length = n) := by
  unfold read_object at h
  rw [if_neg ht] at h
  by_cases h1 : t = REDIS_RDB_TYPE_LIST
  · rw [if_pos h1] at h
    rw [h1] at hlt
    simp only [REDIS_RDB_TYPE_LIST, DATA_TYPE_MAPPING, Option.some.injEq] at hlt
    subst hlt
    cases hl : read_length f with
    | none => simp [hl] at h
    | some p =>
      obtain ⟨n, f1⟩ := p
      simp only [hl] at h
      cases hN : readNStrings n f1 with
      | none => simp [hN] at h
      | some q =>
        obtain ⟨vs, f2⟩ := q
        simp only [hN, Option.some.injEq, Prod.mk.injEq] at h
        refine ⟨n, _, _, vs.map (fun v => Event.rpush key v), h.1.symm,
          by simp [isStartOf], ?_, by simp [isEndOf], ?_⟩
        · intro ev hev
          obtain ⟨v, hv, hev2⟩ := List.mem_map.mp hev
          rw [← hev2]
          simp [isElemOf]
        · intro _
          rw [List.length_map]
          exact readNStrings_length n f1 vs f2 hN
  · rw [if_neg h1] at h
    by_cases h2 : t = REDIS_RDB_TYPE_SET
    · rw [if_pos h2] at h
      rw [h2] at hlt
      simp only [REDIS_RDB_TYPE_SET, DATA_TYPE_MAPPING, Option.some.injEq] at hlt
      subst hlt
      cases hl : read_length f with
      | none => simp [hl] at h
      | some p =>
        obtain ⟨n, f1⟩ := p
        simp only [hl] at h
        cases hN : readNStrings n f1 with
        | none => simp [hN] at h
        | some q =>
          obtain ⟨vs, f2⟩ := q
          simp only [hN, Option.some.injEq, Prod.mk.injEq] at h
          refine ⟨n, _, _, vs.map (fun v => Event.sadd key v), h.1.symm,
            by simp [isStartOf], ?_, by simp [isEndOf], ?_⟩
          · intro ev hev
            obtain ⟨v, hv, hev2⟩ := List.mem_map.mp hev
            rw [← hev2]
            simp [isElemOf]
          · intro _
            rw [List.length_map]
            exact readNStrings_length n f1 vs f2 hN
    · rw [if_neg h2] at h
      by_cases h3 : t = REDIS_RDB_TYPE_ZSET
      · rw [if_pos h3] at h
        rw [h3] at hlt
        simp only [REDIS_RDB_TYPE_ZSET, DATA_TYPE_MAPPING, Option.some.injEq] at hlt
        subst hlt
        cases hl : read_length f with
        | none => simp [hl] at h
        | some p =>
          obtain ⟨n, f1⟩ := p
          simp only [hl] at h
          cases hN : readZSetPairs n f1 with
          | none => simp [hN] at h
          | some q =>
            obtain ⟨ps, f2⟩ := q
            simp only [hN, Option.some.injEq, Prod.mk.injEq] at h
            refine ⟨n, _, _,
              ps.map (fun p => Event.zadd key (RVal.bytes p.2) p.1), h.1.symm,
              by simp [isStartOf], ?_, by simp [isEndOf], ?_⟩
            · intro ev hev
              obtain ⟨v, hv, hev2⟩ := List.mem_map.mp hev
              rw [← hev2]
              simp [isElemOf]
            · intro _
              rw [List.length_map]
              exact readZSetPairs_length n f1 ps f2 hN
      · rw [if_neg h3] at h
        by_cases h4 : t = REDIS_RDB_TYPE_HASH
        · rw [if_pos h4] at h
          rw [h4] at hlt
          simp only [REDIS_RDB_TYPE_HASH, DATA_TYPE_MAPPING, Option.some.injEq] at hlt
          subst hlt
          cases hl : read_length f with
          | none => simp [hl] at h
          | some p =>
            obtain ⟨n, f1⟩ := p
            simp only [hl] at h
            cases hN : readNPairs n f1 with
            | none => simp [hN] at h
            | some q =>
              obtain ⟨ps, f2⟩ := q
              simp only [hN, Option.some.injEq, Prod.mk.injEq] at h
              refine ⟨n, _, _, ps.map (fun p => Event.hset key p.1 p.2), h.1.symm,
                by simp [isStartOf], ?_, by simp [isEndOf], ?_⟩
              · intro ev hev
                obtain ⟨v, hv, hev2⟩ := List.mem_map.mp hev
                rw [← hev2]
                simp [isElemOf]
              · intro _
                rw [List.length_map]
                exact readNPairs_length n f1 ps f2 hN
        · rw [if_neg h4] at h
          by_cases h9 : t = REDIS_RDB_TYPE_HASH_ZIPMAP
          · rw [if_pos h9] at h
            rw [h9] at hlt
            simp only [REDIS_RDB_TYPE_HASH_ZIPMAP, DATA_TYPE_MAPPING,
              Option.some.injEq] at hlt
            subst hlt
            obtain ⟨_, num, info, hsets, hall, hevs⟩ := read_zipmap_elim h
            refine ⟨num, _, _, hsets, hevs, by simp [isStartOf], ?_,
              by simp [isEndOf], fun habs => absurd h9 habs⟩
            intro ev hev
            obtain ⟨k, v, hev2⟩ := hall ev hev
            rw [hev2]
            simp [isElemOf]
          · rw [if_neg h9] at h
            by_cases h10 : t = REDIS_RDB_TYPE_LIST_ZIPLIST
            · rw [if_pos h10] at h
              rw [h10] at hlt
              simp only [REDIS_RDB_TYPE_LIST_ZIPLIST, DATA_TYPE_MAPPING,
                Option.some.injEq] at hlt
              subst hlt
              obtain ⟨_, num, info, vals, hlen, hevs⟩ := read_ziplist_elim h
              refine ⟨num, _, _, vals.map (fun v => Event.rpush key v), hevs,
                by simp [isStartOf], ?_, by simp [isEndOf], ?_⟩
              · intro ev hev
                obtain ⟨v, hv, hev2⟩ := List.mem_map.mp hev
                rw [← hev2]
                simp [isElemOf]
              · intro _
                rw [List.length_map]
                exact hlen
            · rw [if_neg h10] at h
              by_cases h11 : t = REDIS_RDB_TYPE_SET_INTSET
              · rw [if_pos h11] at h
                rw [h11] at hlt
                simp only [REDIS_RDB_TYPE_SET_INTSET, DATA_TYPE_MAPPING,
                  Option.some.injEq] at hlt
                subst hlt
                obtain ⟨_, num, info, entries, hlen, hevs⟩ := read_intset_elim h
                refine ⟨num, _, _,
                  entries.map (fun en => Event.sadd key (RVal.int (Int.ofNat en))), hevs,
                  by simp [isStartOf], ?_, by simp [isEndOf], ?_⟩
                · intro ev hev
                  obtain ⟨v, hv, hev2⟩ := List.mem_map.mp hev
                  rw [← hev2]
                  simp [isElemOf]
                · intro _
                  rw [List.length_map]
                  exact hlen
              · rw [if_neg h11] at h
                by_cases h12 : t = REDIS_RDB_TYPE_ZSET_ZIPLIST
                · rw [if_pos h12] at h
                  rw [h12] at hlt
                  simp only [REDIS_RDB_TYPE_ZSET_ZIPLIST, DATA_TYPE_MAPPING,
                    Option.some.injEq] at hlt
                  subst hlt
                  obtain ⟨_, num, info, pairs, hlen, hevs⟩ :=
                    read_zset_from_ziplist_elim h
                  refine ⟨num, _, _,
                    pairs.map (fun p => Event.zadd key p.2 p.1), hevs,
                    by simp [isStartOf], ?_, by simp [isEndOf], ?_⟩
                  · intro ev hev
                    obtain ⟨v, hv, hev2⟩ := List.mem_map.mp hev
                    rw [← hev2]
                    simp [isElemOf]
                  · intro _
                    rw [List.length_map]
                    exact hlen
                · rw [if_neg h12] at h
                  by_cases h13 : t = REDIS_RDB_TYPE_HASH_ZIPLIST
                  · rw [if_pos h13] at h
                    rw [h13] at hlt
                    simp only [REDIS_RDB_TYPE_HASH_ZIPLIST, DATA_TYPE_MAPPING,
                      Option.some.injEq] at hlt
                    subst hlt
                    obtain ⟨_, num, info, pairs, hlen, hevs⟩ :=
                      read_hash_from_ziplist_elim h
                    refine ⟨num, _, _,
                      pairs.map (fun p => Event.hset key p.1 p.2), hevs,
                      by simp [isStartOf], ?_, by simp [isEndOf], ?_⟩
                    · intro ev hev
                      obtain ⟨v, hv, hev2⟩ := List.mem_map.mp hev
                      rw [← hev2]
                      simp [isElemOf]
                    · intro _
                      rw [List.length_map]
                      exact hlen
                  · rw [if_neg h13] at h
                    simp at h

/-- Counterexample to C2 as stated: a zipmap whose advisory header
count byte is 5 but whose body ends immediately emits
`start_hash(key, 5)` followed by zero `hset` callbacks and
`end_hash(key)`. -/
theorem claim_C2_cex :
    read_object (RVal.bytes [107]) none 9 [2, 5, 255] =
      some (Event.start_hash (RVal.bytes [107]) 5 none ⟨"zipmap", some 2⟩
        :: ([] : List Event) ++ [Event.end_hash (RVal.bytes [107])], []) ∧
      List.length ([] : List Event) ≠ 5 := by
  constructor
  · decide
  · decide

/-- Witness for C2 on a two-field hashtable-encoded hash. -/
theorem claim_C2_witness :
    ∃ (n : Nat) (startEv endEv : Event) (elems : List Event),
      [Event.start_hash (RVal.bytes [107]) 2 none ⟨"hashtable", none⟩,
        Event.hset (RVal.bytes [107]) (RVal.bytes [97]) (RVal.bytes [98]),
        Event.hset (RVal.bytes [107]) (RVal.bytes [99]) (RVal.bytes [100]),
        Event.end_hash (RVal.bytes [107])] = startEv :: elems ++ [endEv] ∧
      isStartOf "hash" (RVal.bytes [107]) n startEv = true ∧
      (∀ ev ∈ elems, isElemOf "hash" (RVal.bytes [107]) ev = true) ∧
      isEndOf "hash" (RVal.bytes [107]) endEv = true ∧
      ((4 : Nat) ≠ REDIS_RDB_TYPE_HASH_ZIPMAP → elems.length = n) :=
  claim_C2 (RVal.bytes [107]) none 4 [2, 1, 97, 1, 98, 1, 99, 1, 100, 7] _ [7]
    "hash" (by decide) (by decide) (by decide)

/-! ### Database lifecycle (claim C3) -/

theorem dbTag_map_none {α : Type} (mk : α → Event)
    (hmk : ∀ a, dbTag (mk a) = none ∧ dbrTag (mk a) = none) (l : List α) :
    ∀ ev ∈ l.map mk, dbTag ev = none ∧ dbrTag ev = none := by
  intro ev hev
  obtain ⟨a, _, hev2⟩ := List.mem_map.mp hev
  rw [← hev2]
  exact hmk a

theorem shape_no_db {s en : Event} {elems : List Event}
    (hs : dbTag s = none ∧ dbrTag s = none)
    (hen : dbTag en = none ∧ dbrTag en = none)
    (helems : ∀ ev ∈ elems, dbTag ev = none ∧ dbrTag ev = none) :
    ∀ ev ∈ s :: elems ++ [en], dbTag ev = none ∧ dbrTag ev = none := by
  intro ev hev
  rcases List.mem_cons.mp hev with rfl | hev
  · exact hs
  · rcases List.mem_append.mp hev with hev | hev
    · exact helems ev hev
    · rw [List.mem_singleton.mp hev]
      exact hen

/-- `read_object` never emits a database lifecycle event, nor the
terminal `end_rdb`. -/
theorem read_object_no_db {key : RVal} {e : Option Nat} {t : Nat} {f : ByteStream}
    {evs : List Event} {rest : ByteStream}
    (h : read_object key e t f = some (evs, rest)) :
    ∀ ev ∈ evs, dbTag ev = none ∧ dbrTag ev = none := by
  unfold read_object at h
  by_cases h0 : t = REDIS_RDB_TYPE_STRING
  · rw [if_pos h0] at h
    cases hs : read_string f with
    | none => simp [hs] at h
    | some p =>
      obtain ⟨val, f1⟩ := p
      simp only [hs, Option.some.injEq, Prod.mk.injEq] at h
      rw [← h.1]
      intro ev hev
      rw [List.mem_singleton.mp hev]
      exact ⟨rfl, rfl⟩
  · rw [if_neg h0] at h
    by_cases h1 : t = REDIS_RDB_TYPE_LIST
    · rw [if_pos h1] at h
      cases hl : read_length f with
      | none => simp [hl] at h
      | some p =>
        obtain ⟨n, f1⟩ := p
        simp only [hl] at h
        cases hN : readNStrings n f1 with
        | none => simp [hN] at h
        | some q =>
          obtain ⟨vs, f2⟩ := q
          simp only [hN, Option.some.injEq, Prod.mk.injEq] at h
          rw [← h.1]
          exact shape_no_db ⟨rfl, rfl⟩ ⟨rfl, rfl⟩
            (dbTag_map_none (fun v => Event.rpush key v) (fun v => ⟨rfl, rfl⟩) vs)
    · rw [if_neg h1] at h
      by_cases h2 : t = REDIS_RDB_TYPE_SET
      · rw [if_pos h2] at h
        cases hl : read_length f with
        | none => simp [hl] at h
        | some p =>
          obtain ⟨n, f1⟩ := p
          simp only [hl] at h
          cases hN : readNStrings n f1 with
          | none => simp [hN] at h
          | some q =>
            obtain ⟨vs, f2⟩ := q
            simp only [hN, Option.some.injEq, Prod.mk.injEq] at h
            rw [← h.1]
            exact shape_no_db ⟨rfl, rfl⟩ ⟨rfl, rfl⟩
              (dbTag_map_none (fun v => Event.sadd key v) (fun v => ⟨rfl, rfl⟩) vs)
      · rw [if_neg h2] at h
        by_cases h3 : t = REDIS_RDB_TYPE_ZSET
        · rw [if_pos h3] at h
          cases hl : read_length f with
          | none => simp [hl] at h
          | some p =>
            obtain ⟨n, f1⟩ := p
            simp only [hl] at h
            cases hN : readZSetPairs n f1 with
            | none => simp [hN] at h
            | some q =>
              obtain ⟨ps, f2⟩ := q
              simp only [hN, Option.some.injEq, Prod.mk.injEq] at h
              rw [← h.1]
              exact shape_no_db ⟨rfl, rfl⟩ ⟨rfl, rfl⟩
                (dbTag_map_none (fun p => Event.zadd key (RVal.bytes p.2) p.1)
                  (fun p => ⟨rfl, rfl⟩) ps)
        · rw [if_neg h3] at h
          by_cases h4 : t = REDIS_RDB_TYPE_HASH
          · rw [if_pos h4] at h
            cases hl : read_length f with
            | none => simp [hl] at h
            | some p =>
              obtain ⟨n, f1⟩ := p
              simp only [hl] at h
              cases hN : readNPairs n f1 with
              | none => simp [hN] at h
              | some q =>
                obtain ⟨ps, f2⟩ := q
                simp only [hN, Option.some.injEq, Prod.mk.injEq] at h
                rw [← h.1]
                exact shape_no_db ⟨rfl, rfl⟩ ⟨rfl, rfl⟩
                  (dbTag_map_none (fun p => Event.hset key p.1 p.2)
                    (fun p => ⟨rfl, rfl⟩) ps)
          · rw [if_neg h4] at h
            by_cases h9 : t = REDIS_RDB_TYPE_HASH_ZIPMAP
            · rw [if_pos h9] at h
              obtain ⟨_, num, info, hsets, hall, hevs⟩ := read_zipmap_elim h
              rw [hevs]
              refine shape_no_db ⟨rfl, rfl⟩ ⟨rfl, rfl⟩ ?_
              intro ev hev
              obtain ⟨k, v, hev2⟩ := hall ev hev
              rw [hev2]
              exact ⟨rfl, rfl⟩
            · rw [if_neg h9] at h
              by_cases h10 : t = REDIS_RDB_TYPE_LIST_ZIPLIST
              · rw [if_pos h10] at h
                obtain ⟨_, num, info, vals, _, hevs⟩ := read_ziplist_elim h
                rw [hevs]
                exact shape_no_db ⟨rfl, rfl⟩ ⟨rfl, rfl⟩
                  (dbTag_map_none (fun v => Event.rpush key v) (fun v => ⟨rfl, rfl⟩) vals)
              · rw [if_neg h10] at h
                by_cases h11 : t = REDIS_RDB_TYPE_SET_INTSET
                · rw [if_pos h11] at h
                  obtain ⟨_, num, info, entries, _, hevs⟩ := read_intset_elim h
                  rw [hevs]
                  exact shape_no_db ⟨rfl, rfl⟩ ⟨rfl, rfl⟩
                    (dbTag_map_none (fun en => Event.sadd key (RVal.int (Int.ofNat en)))
                      (fun en => ⟨rfl, rfl⟩) entries)
                · rw [if_neg h11] at h
                  by_cases h12 : t = REDIS_RDB_TYPE_ZSET_ZIPLIST
                  · rw [if_pos h12] at h
                    obtain ⟨_, num, info, pairs, _, hevs⟩ :=
                      read_zset_from_ziplist_elim h
                    rw [hevs]
                    exact shape_no_db ⟨rfl, rfl⟩ ⟨rfl, rfl⟩
                      (dbTag_map_none (fun p => Event.zadd key p.2 p.1)
                        (fun p => ⟨rfl, rfl⟩) pairs)
                  · rw [if_neg h12] at h
                    by_cases h13 : t = REDIS_RDB_TYPE_HASH_ZIPLIST
                    · rw [if_pos h13] at h
                      obtain ⟨_, num, info, pairs, _, hevs⟩ :=
                        read_hash_from_ziplist_elim h
                      rw [hevs]
                      exact shape_no_db ⟨rfl, rfl⟩ ⟨rfl, rfl⟩
                        (dbTag_map_none (fun p => Event.hset key p.1 p.2)
                          (fun p => ⟨rfl, rfl⟩) pairs)
                    · rw [if_neg h13] at h
                      simp at h

theorem dbSeq_nil_of_no_db {evs : List Event} (h : ∀ ev ∈ evs, dbTag ev = none) :
    dbSeq evs = [] :=
  List.filterMap_eq_nil_iff.mpr h

theorem dbrSeq_nil_of_no_db {evs : List Event} (h : ∀ ev ∈ evs, dbrTag ev = none) :
    dbrSeq evs = [] :=
  List.filterMap_eq_nil_iff.mpr h

/-- A sequence accepted by `seqOpen` has one more `end` than `start`. -/
theorem seqOpen_count : ∀ (n : Nat) (l : List Bool), l.length ≤ n →
    seqOpen l = true → l.count false = l.count true + 1 := by
  intro n
  induction n with
  | zero =>
    intro l hl h
    match l with
    | [] => simp [seqOpen] at h
    | a :: t => simp at hl
  | succ m ih =>
    intro l hl h
    match l with
    | [] => simp [seqOpen] at h
    | true :: t => simp [seqOpen] at h
    | [false] => simp
    | false :: false :: t => simp [seqOpen] at h
    | false :: true :: t =>
      have h2 : seqOpen t = true := by
        simpa [seqOpen] using h
      have hl2 : t.length ≤ m := by
        simp at hl
        omega
      have hc := ih t hl2 h2
      simp [List.count_cons]
      omega

theorem dbSeq_count (b : Bool) : ∀ (evs : List Event),
    (dbSeq evs).count b = evs.countP (fun ev => dbTag ev == some b) := by
  intro evs
  induction evs with
  | nil => rfl
  | cons ev t ih =>
    simp only [dbSeq] at ih ⊢
    cases hd : dbTag ev with
    | none =>
      rw [List.filterMap_cons_none hd, List.countP_cons, ih]
      simp [hd]
    | some b2 =>
      rw [List.filterMap_cons_some hd, List.count_cons, List.countP_cons, ih]
      by_cases hb : b2 = b <;> simp [hd, hb]

/-- The database-lifecycle projections of a completed `parseLoop` run:
from the initial state the `start`/`end` projection is either the
single unmatched `end` emitted by a file with no database-select
opcode, or a well-formed alternating sequence, and the extended
projection that also keeps `end_rdb` is either `[end, end_rdb]` or a
well-formed alternating sequence closed by `end` then `end_rdb`; from
an open database both always close properly. -/
theorem parseLoop_dbseq : ∀ (fuel : Nat) (fl : Filters) (st : PState)
    (f : ByteStream) (evs : List Event), parseLoop fl fuel st f = some evs →
    ((st.is_first_database = true →
      dbSeq evs = [false] ∨ altTF (dbSeq evs) = true) ∧
    (st.is_first_database = false → seqOpen (dbSeq evs) = true)) ∧
    ((st.is_first_database = true →
      dbrSeq evs = [1, 2] ∨ altTFR (dbrSeq evs) = true) ∧
    (st.is_first_database = false → seqOpenR (dbrSeq evs) = true)) := by
  intro fuel
  induction fuel with
  | zero =>
    intro fl st f evs h
    simp [parseLoop] at h
  | succ m ih =>
    intro fl st f evs h
    simp only [parseLoop] at h
    cases f with
    | nil => simp [read_unsigned_char] at h
    | cons dt0 f1 =>
      simp only [read_unsigned_char] at h
      cases hexp : readExpiryOpcodes dt0 f1 none with
      | none => simp [hexp] at h
      | some trip =>
        obtain ⟨data_type, f2, expiry⟩ := trip
        simp only [hexp] at h
        by_cases hsel : data_type = REDIS_RDB_OPCODE_SELECTDB
        · rw [if_pos hsel] at h
          cases hrl : read_length f2 with
          | none => simp [hrl] at h
          | some p =>
            obtain ⟨dbn, f3⟩ := p
            simp only [hrl] at h
            cases hrec : parseLoop fl m ⟨false, dbn, expiry⟩ f3 with
            | none => simp [hrec] at h
            | some evs1 =>
              simp only [hrec, Option.some.injEq] at h
              subst h
              have hopen := (ih fl ⟨false, dbn, expiry⟩ f3 evs1 hrec).1.2 rfl
              have hopenR := (ih fl ⟨false, dbn, expiry⟩ f3 evs1 hrec).2.2 rfl
              by_cases hf : st.is_first_database = true
              · refine ⟨⟨?_, ?_⟩, ?_, ?_⟩
                · intro _
                  right
                  rw [hf]
                  rw [if_pos rfl, List.nil_append]
                  simp only [dbSeq, List.filterMap_cons_some
                    (show dbTag (Event.start_database dbn) = some true from rfl)]
                  simpa [altTF, dbSeq] using hopen
                · intro habs
                  rw [hf] at habs
                  simp at habs
                · intro _
                  right
                  rw [hf]
                  rw [if_pos rfl, List.nil_append]
                  simp only [dbrSeq, List.filterMap_cons_some
                    (show dbrTag (Event.start_database dbn) = some 0 from rfl)]
                  simpa [altTFR, dbrSeq] using hopenR
                · intro habs
                  rw [hf] at habs
                  simp at habs
              · have hf2 : st.is_first_database = false := by
                  revert hf
                  cases st.is_first_database <;> simp
                refine ⟨⟨?_, ?_⟩, ?_, ?_⟩
                · intro habs
                  rw [hf2] at habs
                  simp at habs
                · intro _
                  rw [hf2]
                  rw [if_neg (by simp : ¬ (false = true))]
                  rw [List.cons_append, List.nil_append]
                  simp only [dbSeq, List.filterMap_cons_some
                    (show dbTag (Event.end_database st.db_number) = some false from rfl),
                    List.filterMap_cons_some
                    (show dbTag (Event.start_database dbn) = some true from rfl)]
                  simpa [seqOpen, dbSeq] using hopen
                · intro habs
                  rw [hf2] at habs
                  simp at habs
                · intro _
                  rw [hf2]
                  rw [if_neg (by simp : ¬ (false = true))]
                  rw [List.cons_append, List.nil_append]
                  simp only [dbrSeq, List.filterMap_cons_some
                    (show dbrTag (Event.end_database st.db_number) = some 1 from rfl),
                    List.filterMap_cons_some
                    (show dbrTag (Event.start_database dbn) = some 0 from rfl)]
                  simpa [seqOpenR, dbrSeq] using hopenR
        · rw [if_neg hsel] at h
          by_cases heof : data_type = REDIS_RDB_OPCODE_EOF
          · rw [if_pos heof] at h
            simp only [Option.some.injEq] at h
            subst h
            refine ⟨⟨?_, ?_⟩, ?_, ?_⟩
            · intro _
              left
              rfl
            · intro _
              rfl
            · intro _
              left
              rfl
            · intro _
              rfl
          · rw [if_neg heof] at h
            cases hm1 : matches_filter fl st.db_number none none with
            | none => simp [hm1] at h
            | some b1 =>
              simp only [hm1] at h
              cases b1 with
              | true =>
                cases hrs : read_string f2 with
                | none => simp [hrs] at h
                | some p =>
                  obtain ⟨key, f3⟩ := p
                  simp only [hrs] at h
                  cases hm2 : matches_filter fl st.db_number (some key)
                      (some data_type) with
                  | none => simp [hm2] at h
                  | some b2 =>
                    simp only [hm2] at h
                    cases b2 with
                    | true =>
                      cases hro : read_object key expiry data_type f3 with
                      | none => simp [hro] at h
                      | some q =>
                        obtain ⟨evs0, f4⟩ := q
                        simp only [hro] at h
                        cases hrec : parseLoop fl m
                            ⟨st.is_first_database, st.db_number, expiry⟩ f4 with
                        | none => simp [hrec] at h
                        | some evs2 =>
                          simp only [hrec, Option.some.injEq] at h
                          subst h
                          have hd : dbSeq (evs0 ++ evs2) = dbSeq evs2 := by
                            simp only [dbSeq, List.filterMap_append]
                            rw [show List.filterMap dbTag evs0 = ([] : List Bool) from
                              dbSeq_nil_of_no_db
                                (fun ev hev => (read_object_no_db hro ev hev).1)]
                            simp
                          have hdr : dbrSeq (evs0 ++ evs2) = dbrSeq evs2 := by
                            simp only [dbrSeq, List.filterMap_append]
                            rw [show List.filterMap dbrTag evs0 = ([] : List Nat) from
                              dbrSeq_nil_of_no_db
                                (fun ev hev => (read_object_no_db hro ev hev).2)]
                            simp
                          rw [hd, hdr]
                          exact ih fl ⟨st.is_first_database, st.db_number, expiry⟩
                            f4 evs2 hrec
                    | false =>
                      cases hsk : skip_object data_type f3 with
                      | none => simp [hsk] at h
                      | some f4 =>
                        simp only [hsk] at h
                        exact ih fl ⟨st.is_first_database, st.db_number, expiry⟩
                          f4 evs h
              | false =>
                cases hsk : skip_key_and_object data_type f2 with
                | none => simp [hsk] at h
                | some f3 =>
                  simp only [hsk] at h
                  exact ih fl ⟨st.is_first_database, st.db_number, expiry⟩
                    f3 evs h

/-- C3 (amended): for every completed parse that emits at least one
`start_database`, the number of `end_database` callbacks equals the
number of `start_database` callbacks, and the database events strictly
alternate: each `end_database` precedes any subsequent
`start_database`, and the final `end_database` precedes `end_rdb`.
The last part is the third conjunct: the projection of the trace onto
`start_database`/`end_database`/`end_rdb` events is accepted by
`altTFR`, i.e. it is exactly `start (end start)* end end_rdb`, so the
one `end_rdb` is the last projected event and is immediately preceded
by the final `end_database`.  A file with no database-select opcode at
all violates the original claim: the end-of-file handler emits an
unmatched `end_database`. -/
theorem claim_C3 (fl : Filters) (f : ByteStream) (evs : List Event)
    (hp : parse fl f = some evs)
    (hs : ∃ n, Event.start_database n ∈ evs) :
    altTF (dbSeq evs) = true ∧ evs.countP isStartDb = evs.countP isEndDb ∧
      altTFR (dbrSeq evs) = true := by
  unfold parse at hp
  cases h5 : readExact 5 f with
  | none => simp [h5] at hp
  | some p =>
    obtain ⟨magic, f1⟩ := p
    simp only [h5] at hp
    by_cases hmag : verify_magic_string magic
    · rw [if_pos hmag] at hp
      cases h4 : readExact 4 f1 with
      | none => simp [h4] at hp
      | some q =>
        obtain ⟨ver, f2⟩ := q
        simp only [h4] at hp
        cases hv : verify_version ver with
        | none => simp [hv] at hp
        | some v =>
          simp only [hv] at hp
          cases hl : parseLoop fl (f2.length + 1) ⟨true, 0, none⟩ f2 with
          | none => simp [hl] at hp
          | some evs1 =>
            simp only [hl, Option.some.injEq] at hp
            subst hp
            have hseq : dbSeq (Event.start_rdb :: evs1) = dbSeq evs1 := by
              simp [dbSeq, List.filterMap_cons_none
                (show dbTag Event.start_rdb = none from rfl)]
            have hseqR : dbrSeq (Event.start_rdb :: evs1) = dbrSeq evs1 := by
              simp [dbrSeq, List.filterMap_cons_none
                (show dbrTag Event.start_rdb = none from rfl)]
            have hPL := parseLoop_dbseq (f2.length + 1) fl ⟨true, 0, none⟩
              f2 evs1 hl
            have hfirst := hPL.1.1 rfl
            have hfirstR := hPL.2.1 rfl
            obtain ⟨n, hn⟩ := hs
            have htrue : true ∈ dbSeq (Event.start_rdb :: evs1) :=
              List.mem_filterMap.mpr ⟨Event.start_database n, hn, rfl⟩
            have hzero : (0 : Nat) ∈ dbrSeq (Event.start_rdb :: evs1) :=
              List.mem_filterMap.mpr ⟨Event.start_database n, hn, rfl⟩
            rw [hseq] at htrue
            rw [hseqR] at hzero
            rw [hseq, hseqR]
            rcases hfirst with hone | halt
            · rw [hone] at htrue
              simp at htrue
            · rcases hfirstR with honeR | haltR
              · rw [honeR] at hzero
                simp at hzero
              · refine ⟨halt, ?_, haltR⟩
                have hcs : (Event.start_rdb :: evs1).countP isStartDb =
                    (dbSeq evs1).count true := by
                  rw [← hseq]
                  exact (dbSeq_count true (Event.start_rdb :: evs1)).symm
                have hce : (Event.start_rdb :: evs1).countP isEndDb =
                    (dbSeq evs1).count false := by
                  rw [← hseq]
                  exact (dbSeq_count false (Event.start_rdb :: evs1)).symm
                rw [hcs, hce]
                cases hdb : dbSeq evs1 with
                | nil => rw [hdb] at halt; simp [altTF] at halt
                | cons b l =>
                  rw [hdb] at halt
                  cases b with
                  | false => simp [altTF] at halt
                  | true =>
                    have hop : seqOpen l = true := by
                      simpa [altTF] using halt
                    have := seqOpen_count l.length l (le_refl _) hop
                    simp [List.count_cons]
                    omega
    · rw [if_neg hmag] at hp
      simp at hp

/-- Counterexample to C3 as stated: a well-formed file whose first
opcode after the header is 255 (no database-select at all) emits one
`end_database` and no `start_database`. -/
theorem claim_C3_cex :
    parse (init_filter none) [82, 69, 68, 73, 83, 48, 48, 48, 54, 255] =
      some [Event.start_rdb, Event.end_database 0, Event.end_rdb] ∧
      ¬ ([Event.start_rdb, Event.end_database 0,
          Event.end_rdb].countP isStartDb =
        [Event.start_rdb, Event.end_database 0, Event.end_rdb].countP isEndDb) := by
  constructor
  · decide
  · decide

/-- Witness for C3 on the empty-database file `REDIS0006 FE 00 FF`. -/
theorem claim_C3_witness :
    altTF (dbSeq [Event.start_rdb, Event.start_database 0,
      Event.end_database 0, Event.end_rdb]) = true ∧
      [Event.start_rdb, Event.start_database 0, Event.end_database 0,
        Event.end_rdb].countP isStartDb =
      [Event.start_rdb, Event.start_database 0, Event.end_database 0,
        Event.end_rdb].countP isEndDb ∧
      altTFR (dbrSeq [Event.start_rdb, Event.start_database 0,
        Event.end_database 0, Event.end_rdb]) = true :=
  claim_C3 (init_filter none)
    [82, 69, 68, 73, 83, 48, 48, 48, 54, 254, 0, 255] _
    (by decide) ⟨0, by decide⟩

/-! ### Expiration attachment (claim C8) -/

/-- C8: a pending expiration set by opcode 252 or 253 is attached to
exactly the next key position and to no later one.  First: the loop
clears `self._expiry` at the start of every iteration, so the result
of `parseLoop` does not depend on the incoming expiry state at all —
in particular the outcome is the same whether or not the preceding key
carried an expiration and whether it was emitted or filtered out.
Second: when an iteration's opcode byte is a type tag not directly
preceded by an expiration opcode, the key's events are produced by
`read_object` with expiry `None`. -/
theorem claim_C8 :
    (∀ (fl : Filters) (fuel : Nat) (first : Bool) (db : Nat)
      (e1 e2 : Option Nat) (f : ByteStream),
      parseLoop fl fuel ⟨first, db, e1⟩ f = parseLoop fl fuel ⟨first, db, e2⟩ f) ∧
    (∀ (fl : Filters) (fuel : Nat) (st : PState) (t : Nat) (f : ByteStream)
      (key : RVal) (f1 : ByteStream) (evs : List Event) (f2 : ByteStream)
      (tl : List Event),
      t ≠ REDIS_RDB_OPCODE_EXPIRETIME_MS → t ≠ REDIS_RDB_OPCODE_EXPIRETIME →
      t ≠ REDIS_RDB_OPCODE_SELECTDB → t ≠ REDIS_RDB_OPCODE_EOF →
      matches_filter fl st.db_number none none = some true →
      read_string f = some (key, f1) →
      matches_filter fl st.db_number (some key) (some t) = some true →
      read_object key none t f1 = some (evs, f2) →
      parseLoop fl fuel ⟨st.is_first_database, st.db_number, none⟩ f2 = some tl →
      parseLoop fl (fuel + 1) st (t :: f) = some (evs ++ tl)) := by
  constructor
  · intro fl fuel first db e1 e2 f
    cases fuel with
    | zero => rfl
    | succ m => rfl
  · intro fl fuel st t f key f1 evs f2 tl h252 h253 h254 h255 hdb hrs hkey hro hrec
    have hexp : readExpiryOpcodes t f none = some (t, f, none) := by
      unfold readExpiryOpcodes
      rw [if_neg h252, if_neg h253]
    simp only [parseLoop, read_unsigned_char, hexp, if_neg h254, if_neg h255,
      hdb, hrs, hkey, hro, hrec]

/-- Witness for C8: a string key directly after a previous key's
region, with a stale expiry of 5 microseconds in the incoming state,
is emitted with expiry `None`. -/
theorem claim_C8_witness :
    parseLoop (init_filter none) 2 ⟨false, 0, some 5⟩ [0, 1, 107, 1, 118, 255] =
      some ([Event.set (RVal.bytes [107]) (RVal.bytes [118]) none
          ⟨"string", none⟩] ++ [Event.end_database 0, Event.end_rdb]) ∧
      parseLoop (init_filter none) 2 ⟨false, 0, some 5⟩ [0, 1, 107, 1, 118, 255] =
        parseLoop (init_filter none) 2 ⟨false, 0, none⟩ [0, 1, 107, 1, 118, 255] :=
  ⟨claim_C8.2 (init_filter none) 1 ⟨false, 0, some 5⟩ 0 [1, 107, 1, 118, 255]
      (RVal.bytes [107]) [1, 118, 255]
      [Event.set (RVal.bytes [107]) (RVal.bytes [118]) none ⟨"string", none⟩]
      [255] [Event.end_database 0, Event.end_rdb]
      (by decide) (by decide) (by decide) (by decide) (by decide) (by decide)
      (by decide) (by decide) (by decide),
    claim_C8.1 (init_filter none) 2 false 0 (some 5) none [0, 1, 107, 1, 118, 255]⟩

end Rdb
